import Mathlib

/-!
A verification development for the Ripes multi-pass RISC-V assembler core.

The development shallowly embeds the assembler pipeline described by the
repository: tokenization, pseudo-instruction expansion, symbol resolution,
directive and section handling, instruction encoding, and the bit-pattern
matcher used for disassembly.  The public surface of the pipeline is the
`Assembler` class of `src/assembler/assembler.h` (passes `pass0`..`pass3`,
each returning either its continuation artifact or an error vector); the
behaviour of the passes is exercised by `test/tst_assembler.cpp`.
-/

namespace RipesSpec

/-! ## Basic data model -/

/-- An error is a source line number paired with a message
(`Assembler::Error` in `assembler.h`). -/
abbrev Error := Nat × String

/-- Collected errors of one pass (`Assembler::Errors`). -/
abbrev Errors := List Error

/-- Modelled from the spec: a source line record: the 1-based source line
number, the leading label symbols split from the line, and the residual
tokens (`Assembler::SourceLine`; the spec permits several `label:` tokens on
one line, so the symbol slot is a list). -/
structure SourceLine where
  source_line : Nat
  symbols : List String
  tokens : List String
deriving DecidableEq, Repr

/-- An intermediate program is an ordered sequence of source lines
(`Assembler::Program`). -/
abbrev Program := List SourceLine

/-- Symbol map: symbol name to absolute address (`Assembler::SymbolMap`). -/
abbrev SymbolMap := List (String × Nat)

/-- Look up a key in an association list keyed by strings. -/
def lookupSym {α : Type} (m : List (String × α)) (s : String) : Option α :=
  match m with
  | [] => none
  | (k, v) :: rest => if k = s then some v else lookupSym rest s

/-! ## Tokenizer

Modelled from the spec §4.1: `#` outside a string starts a comment;
whitespace and commas separate tokens; a double-quoted span is one token
with interior characters preserved verbatim (unterminated quote is an
error); parenthesized expressions are preserved within a single token. -/

/-- Scanner mode: ordinary scanning or inside a double-quoted string. -/
inductive TokMode where
  | normal
  | inString
deriving DecidableEq, Repr

/-- Modelled from the spec: one step-by-step scan of a raw source line.
`depth` is the open-parenthesis depth (whitespace inside parentheses does
not split a token), `cur` the token being accumulated, `toks` the tokens
produced so far. -/
def tokLoop : List Char → TokMode → Nat → List Char → List String →
    Except String (List String)
  | [], .normal, _, cur, toks =>
    if cur = [] then Except.ok toks else Except.ok (toks ++ [String.mk cur])
  | [], .inString, _, _, _ => Except.error "unterminated string"
  | c :: cs, .normal, depth, cur, toks =>
    if c = '#' then
      if cur = [] then Except.ok toks else Except.ok (toks ++ [String.mk cur])
    else if c = '"' then
      tokLoop cs .inString depth (cur ++ [c]) toks
    else if c = '(' then
      tokLoop cs .normal (depth + 1) (cur ++ [c]) toks
    else if c = ')' then
      tokLoop cs .normal (depth - 1) (cur ++ [c]) toks
    else if c.isWhitespace ∨ c = ',' then
      if depth = 0 then
        if cur = [] then tokLoop cs .normal depth [] toks
        else tokLoop cs .normal depth [] (toks ++ [String.mk cur])
      else tokLoop cs .normal depth (cur ++ [c]) toks
    else
      tokLoop cs .normal depth (cur ++ [c]) toks
  | c :: cs, .inString, depth, cur, toks =>
    if c = '"' then tokLoop cs .normal depth (cur ++ [c]) toks
    else tokLoop cs .inString depth (cur ++ [c]) toks

/-- Modelled from the spec: tokenize one raw source line
(`Assembler::tokenize`). -/
def tokenize (line : String) : Except String (List String) :=
  tokLoop line.data .normal 0 [] []

/-! ## Expression evaluator

Modelled from the spec §4.7: integer literals (decimal, `0x` hex, `0b`
binary, leading-`0` octal), symbol references, unary `+`/`-`, binary
`+ - * /`, parentheses; evaluation over signed integers. -/

/-- Character usable inside an identifier (after the first). -/
def isIdentChar (c : Char) : Bool := c.isAlphanum || c = '_'

/-- Decimal digit value accumulation. -/
def digitsToNat (base : Nat) (ds : List Char) : Nat :=
  ds.foldl (fun a c =>
    a * base + (if c.isDigit then c.toNat - 48
                else if c ≥ 'a' then c.toNat - 87 else c.toNat - 55)) 0

/-- Is `c` a digit of the given base? -/
def isBaseDigit (base : Nat) (c : Char) : Bool :=
  if base = 16 then c.isDigit || ('a' ≤ c && c ≤ 'f') || ('A' ≤ c && c ≤ 'F')
  else c.isDigit && c.toNat - 48 < base

/-- Modelled from the spec: classify and evaluate one integer-literal or
symbol run.  `0x…` is hex, `0b…` binary, a leading `0` octal, all-digits
decimal; a digit-leading run with any other shape is a malformed literal;
an identifier run is a symbol reference. -/
def evalRun (syms : SymbolMap) (run : List Char) : Except String Int :=
  match run with
  | [] => Except.error "empty expression"
  | '0' :: 'x' :: rest =>
    if rest ≠ [] ∧ rest.all (isBaseDigit 16) then Except.ok (digitsToNat 16 rest)
    else Except.error "malformed integer literal"
  | '0' :: 'b' :: rest =>
    if rest ≠ [] ∧ rest.all (isBaseDigit 2) then Except.ok (digitsToNat 2 rest)
    else Except.error "malformed integer literal"
  | '0' :: rest =>
    if rest.all (isBaseDigit 8) then Except.ok (digitsToNat 8 rest)
    else Except.error "malformed integer literal"
  | c :: _ =>
    if c.isDigit then
      if run.all (isBaseDigit 10) then Except.ok (digitsToNat 10 run)
      else Except.error "malformed integer literal"
    else if c.isAlpha || c = '_' then
      match lookupSym syms (String.mk run) with
      | some a => Except.ok (Int.ofNat a)
      | none => Except.error ("unknown symbol: " ++ String.mk run)
    else Except.error "malformed integer literal"

/-- Drop leading whitespace of an expression fragment. -/
def skipWs (cs : List Char) : List Char :=
  match cs with
  | [] => []
  | c :: rest => if c.isWhitespace then skipWs rest else c :: rest

mutual

/-- Modelled from the spec: parse a factor: unary sign, parenthesized
subexpression, literal, or symbol reference. -/
def pFactor (syms : SymbolMap) : Nat → List Char → Except String (Int × List Char)
  | 0, _ => Except.error "expression too deep"
  | fuel + 1, cs =>
    match skipWs cs with
    | [] => Except.error "empty expression"
    | '-' :: rest =>
      match pFactor syms fuel rest with
      | Except.ok (v, r) => Except.ok (-v, r)
      | Except.error e => Except.error e
    | '+' :: rest => pFactor syms fuel rest
    | '(' :: rest =>
      match pExpr syms fuel rest with
      | Except.ok (v, r) =>
        match skipWs r with
        | ')' :: r2 => Except.ok (v, r2)
        | _ => Except.error "expected closing parenthesis"
      | Except.error e => Except.error e
    | c :: rest =>
      if isIdentChar c then
        let run := (c :: rest).takeWhile isIdentChar
        let rem := (c :: rest).dropWhile isIdentChar
        match evalRun syms run with
        | Except.ok v => Except.ok (v, rem)
        | Except.error e => Except.error e
      else Except.error "malformed integer literal"

/-- Parse the tail of a term: a sequence of `*`/`/` factors. -/
def pTermTail (syms : SymbolMap) : Nat → Int → List Char → Except String (Int × List Char)
  | 0, _, _ => Except.error "expression too deep"
  | fuel + 1, acc, cs =>
    match skipWs cs with
    | '*' :: rest =>
      match pFactor syms fuel rest with
      | Except.ok (v, r) => pTermTail syms fuel (acc * v) r
      | Except.error e => Except.error e
    | '/' :: rest =>
      match pFactor syms fuel rest with
      | Except.ok (v, r) => pTermTail syms fuel (Int.tdiv acc v) r
      | Except.error e => Except.error e
    | rest => Except.ok (acc, rest)

/-- Parse a term: a factor followed by `*`/`/` factors. -/
def pTerm (syms : SymbolMap) : Nat → List Char → Except String (Int × List Char)
  | 0, _ => Except.error "expression too deep"
  | fuel + 1, cs =>
    match pFactor syms fuel cs with
    | Except.ok (v, r) => pTermTail syms fuel v r
    | Except.error e => Except.error e

/-- Parse the tail of an expression: a sequence of `+`/`-` terms. -/
def pExprTail (syms : SymbolMap) : Nat → Int → List Char → Except String (Int × List Char)
  | 0, _, _ => Except.error "expression too deep"
  | fuel + 1, acc, cs =>
    match skipWs cs with
    | '+' :: rest =>
      match pTerm syms fuel rest with
      | Except.ok (v, r) => pExprTail syms fuel (acc + v) r
      | Except.error e => Except.error e
    | '-' :: rest =>
      match pTerm syms fuel rest with
      | Except.ok (v, r) => pExprTail syms fuel (acc - v) r
      | Except.error e => Except.error e
    | rest => Except.ok (acc, rest)

/-- Parse an expression: a term followed by `+`/`-` terms. -/
def pExpr (syms : SymbolMap) : Nat → List Char → Except String (Int × List Char)
  | 0, _ => Except.error "expression too deep"
  | fuel + 1, cs =>
    match pTerm syms fuel cs with
    | Except.ok (v, r) => pExprTail syms fuel v r
    | Except.error e => Except.error e

end

/-- Modelled from the spec: evaluate one operand token as a constant
expression over the symbol map; the whole token must be consumed. -/
def evalImmExpr (syms : SymbolMap) (tok : String) : Except String Int :=
  match pExpr syms (4 * tok.length + 16) tok.data with
  | Except.ok (v, rest) =>
    if skipWs rest = [] then Except.ok v
    else Except.error ("malformed expression: " ++ tok)
  | Except.error e => Except.error e

/-! ## Symbol splitter

Modelled from the spec §4.4 (`Assembler::splitSymbolFromLine`): a line may
begin with zero or more `label:` tokens; a label may be glued directly to
the following token (`B:nop`); label names must match
`[A-Za-z_][A-Za-z0-9_]*`. -/

/-- First character allowed in a label name. -/
def isLabelStart (c : Char) : Bool := c.isAlpha || c = '_'

/-- Modelled from the spec: does a name match `[A-Za-z_][A-Za-z0-9_]*`? -/
def validLabel (s : String) : Bool :=
  match s.data with
  | [] => false
  | c :: cs => isLabelStart c && cs.all isIdentChar

/-- Scan for the first colon, accumulating the characters before it. -/
def splitColonGo : List Char → List Char → Option (String × String)
  | [], _ => none
  | c :: cs, acc =>
    if c = ':' then some (String.mk acc, String.mk cs)
    else splitColonGo cs (acc ++ [c])

/-- Split a token at its first colon, returning the part before and after. -/
def splitColon (tok : String) : Option (String × String) :=
  splitColonGo tok.data []

/-- Modelled from the spec: peel leading `label:` tokens off a line.  The
fuel bounds the number of peeled labels (each step consumes one colon). -/
def splitSymbolsGo : Nat → List String → List String →
    Except String (List String × List String)
  | 0, toks, acc => Except.ok (acc, toks)
  | fuel + 1, toks, acc =>
    match toks with
    | [] => Except.ok (acc, [])
    | tok :: rest =>
      match splitColon tok with
      | none => Except.ok (acc, tok :: rest)
      | some (lab, after) =>
        if validLabel lab then
          if after = "" then splitSymbolsGo fuel rest (acc ++ [lab])
          else splitSymbolsGo fuel (after :: rest) (acc ++ [lab])
        else Except.error ("invalid label: " ++ lab)

/-- Modelled from the spec: split the leading label symbols from a line's
tokens. -/
def splitSymbols (toks : List String) : Except String (List String × List String) :=
  splitSymbolsGo ((toks.map (·.length)).sum + 1) toks []

/-! ## Pseudo-instruction expansion

Modelled from the spec §4.3 and the glossary: `nop` expands to
`addi x0 x0 0`, `j offset` to `jal x0 offset`, `beqz rs offset` to
`beq rs x0 offset` (`expandPseudoOp`).  A non-pseudo line is reported as
not applicable. -/

/-- Expand one pseudo-instruction token line; `none` means the line does
not start with a pseudo-instruction. -/
def expandPseudo (toks : List String) : Except String (Option (List (List String))) :=
  match toks with
  | "nop" :: args =>
    if args = [] then Except.ok (some [["addi", "x0", "x0", "0"]])
    else Except.error "wrong operand count: nop"
  | "j" :: args =>
    match args with
    | [t] => Except.ok (some [["jal", "x0", t]])
    | _ => Except.error "wrong operand count: j"
  | "beqz" :: args =>
    match args with
    | [rs, t] => Except.ok (some [["beq", rs, "x0", t]])
    | _ => Except.error "wrong operand count: beqz"
  | _ => Except.ok none

/-! ## Registers

Modelled from the spec §6: the register file maps `x0`..`x31` and the
standard ABI aliases to register indices; an out-of-range index such as
`x36` is a semantic error. -/

/-- ABI register aliases of RV32I. -/
def regAliases : List (String × Nat) :=
  [("zero", 0), ("ra", 1), ("sp", 2), ("gp", 3), ("tp", 4),
   ("t0", 5), ("t1", 6), ("t2", 7), ("s0", 8), ("fp", 8), ("s1", 9),
   ("a0", 10), ("a1", 11), ("a2", 12), ("a3", 13), ("a4", 14), ("a5", 15),
   ("a6", 16), ("a7", 17), ("s2", 18), ("s3", 19), ("s4", 20), ("s5", 21),
   ("s6", 22), ("s7", 23), ("s8", 24), ("s9", 25), ("s10", 26), ("s11", 27),
   ("t3", 28), ("t4", 29), ("t5", 30), ("t6", 31)]

/-- Modelled from the spec: resolve a register operand token to its index;
out-of-range numeric registers and unknown names are errors. -/
def parseReg (tok : String) : Except String Nat :=
  match lookupSym regAliases tok with
  | some i => Except.ok i
  | none =>
    match tok.data with
    | 'x' :: ds =>
      if ds ≠ [] ∧ ds.all Char.isDigit then
        let i := digitsToNat 10 ds
        if i < 32 then Except.ok i
        else Except.error ("register index out of range: " ++ tok)
      else Except.error ("unknown register: " ++ tok)
    | _ => Except.error ("unknown register: " ++ tok)

/-! ## Instruction words

Modelled from the spec §4.6/§4.8: fields are written at their ISA-declared
bit ranges; 32-bit RV32I instruction words are composed from a 7-bit
opcode (bits 0–6), a 5-bit slot at bits 7–11, a 3-bit funct3 (bits 12–14),
a 5-bit slot at bits 15–19 and a 12-bit slot at bits 20–31. -/

/-- Compose a 32-bit instruction word from its bit fields: `opc` at bit 0
(7 bits), `slot7` at bit 7 (5 bits), `f3` at bit 12 (3 bits), `slot15` at
bit 15 (5 bits) and `q` at bit 20 (12 bits). -/
def mkWord (opc slot7 f3 slot15 q : Nat) : Nat :=
  opc + (slot7 + (f3 + (slot15 + q * 2 ^ 5) * 2 ^ 3) * 2 ^ 5) * 2 ^ 7

/-- Two's-complement encoding of a signed value into a `w`-bit field. -/
def toUnsigned (w : Nat) (v : Int) : Nat := (v % (2 ^ w : Int)).toNat

/-- Signed reading of a `w`-bit field value. -/
def toSigned (w : Nat) (u : Nat) : Int :=
  if u < 2 ^ (w - 1) then (u : Int) else (u : Int) - (2 ^ w : Int)

/-- Little-endian byte list of a 32-bit word. -/
def wordBytes (w : Nat) : List Nat :=
  [w % 256, w / 2 ^ 8 % 256, w / 2 ^ 16 % 256, w / 2 ^ 24 % 256]

/-! ## Instruction encoder

Modelled from the spec §4.6 (`Assembler::assembleInstruction`): per
operand slot, register operands resolve to indices, immediate operands
evaluate as expressions over the symbol map (PC-relative immediates
subtract the instruction address) and are range-checked against the
field; errors accumulate per line. -/

/-- Collect the error messages of failed operand results, in operand
order. -/
def operandErrors (rs : List (Except String Nat)) : List String :=
  match rs with
  | [] => []
  | Except.ok _ :: rest => operandErrors rest
  | Except.error e :: rest => e :: operandErrors rest

/-- Modelled from the spec: evaluate an immediate operand token and check
it against an inclusive signed range. -/
def parseImmRange (syms : SymbolMap) (lo hi : Int) (tok : String) :
    Except String Nat :=
  match evalImmExpr syms tok with
  | Except.error e => Except.error e
  | Except.ok v =>
    if lo ≤ v ∧ v ≤ hi then Except.ok (toUnsigned 12 v)
    else Except.error ("immediate out of range: " ++ tok)

/-- Split a memory operand token `off(reg)` into the offset expression and
the register token. -/
def splitMem (tok : String) : Except String (String × String) :=
  match tok.data.getLast? with
  | some ')' =>
    let inner := tok.data.dropLast
    match (inner.reverse.findIdx? (· = '(')) with
    | some j =>
      let i := inner.length - 1 - j
      Except.ok (String.mk (inner.take i), String.mk (inner.drop (i + 1)))
    | none => Except.error ("invalid memory operand: " ++ tok)
  | _ => Except.error ("invalid memory operand: " ++ tok)

/-- Modelled from the spec: evaluate a PC-relative branch/jump target and
check range and 2-byte alignment for a `w`-bit offset field. -/
def parseBranchTarget (syms : SymbolMap) (w : Nat) (pc : Nat) (tok : String) :
    Except String Nat :=
  match evalImmExpr syms tok with
  | Except.error e => Except.error e
  | Except.ok v =>
    let off := v - (pc : Int)
    if -(2 ^ (w - 1) : Int) ≤ off ∧ off < (2 ^ (w - 1) : Int) ∧ off % 2 = 0 then
      Except.ok (toUnsigned w off)
    else Except.error ("branch offset out of range: " ++ tok)

/-- The low B-type slot (bits 7–11) of a 13-bit branch offset encoding
`u`: `off[11]` at bit 7 and `off[4:1]` at bits 8–11. -/
def btypeLo (u : Nat) : Nat := u / 2 ^ 11 % 2 + u / 2 % 2 ^ 4 * 2

/-- The high B-type slot (bits 25–31) of a 13-bit branch offset encoding
`u`: `off[10:5]` at bits 25–30 and `off[12]` at bit 31. -/
def btypeHi (u : Nat) : Nat := u / 2 ^ 5 % 2 ^ 6 + u / 2 ^ 12 % 2 * 2 ^ 6

/-- Spread a 21-bit jump offset encoding `u` into the 20-bit J-type field
at bit 12: `off[19:12]`, then `off[11]`, then `off[10:1]`, then `off[20]`. -/
def jtypeField (u : Nat) : Nat :=
  u / 2 ^ 12 % 2 ^ 8 + u / 2 ^ 11 % 2 * 2 ^ 8 + u / 2 % 2 ^ 10 * 2 ^ 9 +
    u / 2 ^ 20 % 2 * 2 ^ 19

/-- Modelled from the spec: encode one concrete instruction line given the
symbol map and the instruction's address; operand errors accumulate in
operand order. -/
def encodeInstr (syms : SymbolMap) (pc : Nat) (toks : List String) :
    Except (List String) (List Nat) :=
  match toks with
  | "addi" :: args =>
    match args with
    | [a, b, c] =>
      let rd := parseReg a
      let rs1 := parseReg b
      let imm := parseImmRange syms (-2048) 2047 c
      match rd, rs1, imm with
      | Except.ok rd, Except.ok rs1, Except.ok u =>
        Except.ok (wordBytes (mkWord 0x13 rd 0 rs1 u))
      | _, _, _ => Except.error (operandErrors [rd, rs1, imm])
    | _ => Except.error ["wrong operand count: addi"]
  | "add" :: args =>
    match args with
    | [a, b, c] =>
      let rd := parseReg a
      let rs1 := parseReg b
      let rs2 := parseReg c
      match rd, rs1, rs2 with
      | Except.ok rd, Except.ok rs1, Except.ok rs2 =>
        Except.ok (wordBytes (mkWord 0x33 rd 0 rs1 rs2))
      | _, _, _ => Except.error (operandErrors [rd, rs1, rs2])
    | _ => Except.error ["wrong operand count: add"]
  | "sub" :: args =>
    match args with
    | [a, b, c] =>
      let rd := parseReg a
      let rs1 := parseReg b
      let rs2 := parseReg c
      match rd, rs1, rs2 with
      | Except.ok rd, Except.ok rs1, Except.ok rs2 =>
        Except.ok (wordBytes (mkWord 0x33 rd 0 rs1 (rs2 + 0x20 * 2 ^ 5)))
      | _, _, _ => Except.error (operandErrors [rd, rs1, rs2])
    | _ => Except.error ["wrong operand count: sub"]
  | "lw" :: args =>
    match args with
    | [a, m] =>
      match splitMem m with
      | Except.error e => Except.error [e]
      | Except.ok (off, base) =>
        let rd := parseReg a
        let rs1 := parseReg base
        let imm := parseImmRange syms (-2048) 2047 off
        match rd, rs1, imm with
        | Except.ok rd, Except.ok rs1, Except.ok u =>
          Except.ok (wordBytes (mkWord 0x03 rd 2 rs1 u))
        | _, _, _ => Except.error (operandErrors [rd, rs1, imm])
    | _ => Except.error ["wrong operand count: lw"]
  | "sw" :: args =>
    match args with
    | [a, m] =>
      match splitMem m with
      | Except.error e => Except.error [e]
      | Except.ok (off, base) =>
        let rs2 := parseReg a
        let rs1 := parseReg base
        let imm := parseImmRange syms (-2048) 2047 off
        match rs2, rs1, imm with
        | Except.ok rs2, Except.ok rs1, Except.ok u =>
          Except.ok (wordBytes (mkWord 0x23 (u % 2 ^ 5) 2 rs1 (rs2 + u / 2 ^ 5 * 2 ^ 5)))
        | _, _, _ => Except.error (operandErrors [rs2, rs1, imm])
    | _ => Except.error ["wrong operand count: sw"]
  | "beq" :: args =>
    match args with
    | [a, b, t] =>
      let rs1 := parseReg a
      let rs2 := parseReg b
      let off := parseBranchTarget syms 13 pc t
      match rs1, rs2, off with
      | Except.ok rs1, Except.ok rs2, Except.ok u =>
        Except.ok (wordBytes
          (mkWord 0x63 (btypeLo u) 0 rs1 (rs2 + btypeHi u * 2 ^ 5)))
      | _, _, _ => Except.error (operandErrors [rs1, rs2, off])
    | _ => Except.error ["wrong operand count: beq"]
  | "jal" :: args =>
    match args with
    | [a, t] =>
      let rd := parseReg a
      let off := parseBranchTarget syms 21 pc t
      match rd, off with
      | Except.ok rd, Except.ok u =>
        Except.ok (wordBytes (0x6F + (rd + jtypeField u * 2 ^ 5) * 2 ^ 7))
      | _, _ => Except.error (operandErrors [rd, off])
    | _ => Except.error ["wrong operand count: jal"]
  | mnem :: _ => Except.error ["unknown instruction: " ++ mnem]
  | [] => Except.error ["empty instruction"]

/-! ## Directive catalog

Modelled from the spec §6: `.text`/`.data`/`.bss` switch sections and take
no arguments; `.word`/`.half`/`.byte` emit little-endian integers;
`.string`/`.asciz` emit each string literal followed by a `NUL`; `.ascii`
without the `NUL`; `.zero` emits zero bytes; `.align` pads to a power of
two; `.globl` is advisory.  Unknown directives are errors. -/

/-- Does a token stand in directive position (leading `.`)? -/
def isDirTok (t : String) : Bool :=
  match t.data with
  | '.' :: _ => true
  | _ => false

/-- The interior characters of a double-quoted string-literal token, or
`none` if the token is not a quoted string. -/
def stringInterior (tok : String) : Option (List Char) :=
  match tok.data with
  | '"' :: rest =>
    match rest.getLast? with
    | some '"' => some rest.dropLast
    | _ => none
  | _ => none

/-- Little-endian byte list of a 16-bit value. -/
def halfBytes (v : Nat) : List Nat := [v % 256, v / 2 ^ 8 % 256]

/-- Round `n` up to the next multiple of `a`. -/
def alignUp (n a : Nat) : Nat := if a = 0 then n else (n + a - 1) / a * a

/-- The directive catalog built into the core (spec §6). -/
def knownDirectives : List String :=
  [".text", ".data", ".bss", ".word", ".half", ".byte", ".string", ".asciz",
   ".ascii", ".zero", ".align", ".globl"]

/-- Effect of a directive on the layout pass. -/
inductive DirEffect where
  | switchSec (s : String)
  | emit (n : Nat)
  | alignTo (e : Nat)
deriving DecidableEq, Repr

/-- Modelled from the spec: classify a directive and compute how many
bytes it will emit (used by the pass-2 layout); argument arity and
unknown directives are checked here. -/
def directiveEffect (tok : String) (args : List String) : Except String DirEffect :=
  if tok = ".text" ∨ tok = ".data" ∨ tok = ".bss" then
    if args = [] then Except.ok (DirEffect.switchSec tok)
    else Except.error ("directive takes no arguments: " ++ tok)
  else if tok = ".word" then
    if args ≠ [] then Except.ok (DirEffect.emit (4 * args.length))
    else Except.error ("missing directive arguments: " ++ tok)
  else if tok = ".half" then
    if args ≠ [] then Except.ok (DirEffect.emit (2 * args.length))
    else Except.error ("missing directive arguments: " ++ tok)
  else if tok = ".byte" then
    if args ≠ [] then Except.ok (DirEffect.emit args.length)
    else Except.error ("missing directive arguments: " ++ tok)
  else if tok = ".string" ∨ tok = ".asciz" then
    match args.mapM stringInterior with
    | some strs =>
      if args ≠ [] then Except.ok (DirEffect.emit ((strs.map (·.length + 1)).sum))
      else Except.error ("missing directive arguments: " ++ tok)
    | none => Except.error ("invalid string literal in " ++ tok)
  else if tok = ".ascii" then
    match args.mapM stringInterior with
    | some strs =>
      if args ≠ [] then Except.ok (DirEffect.emit ((strs.map (·.length)).sum))
      else Except.error ("missing directive arguments: " ++ tok)
    | none => Except.error ("invalid string literal in " ++ tok)
  else if tok = ".zero" then
    match args with
    | [a] =>
      match evalImmExpr [] a with
      | Except.ok v =>
        if 0 ≤ v then Except.ok (DirEffect.emit v.toNat)
        else Except.error ("negative count: " ++ tok)
      | Except.error e => Except.error e
    | _ => Except.error ("wrong argument count: " ++ tok)
  else if tok = ".align" then
    match args with
    | [a] =>
      match evalImmExpr [] a with
      | Except.ok v =>
        if 0 ≤ v ∧ v ≤ 12 then Except.ok (DirEffect.alignTo v.toNat)
        else Except.error ("alignment exponent out of range: " ++ tok)
      | Except.error e => Except.error e
    | _ => Except.error ("wrong argument count: " ++ tok)
  else if tok = ".globl" then
    match args with
    | [_] => Except.ok (DirEffect.emit 0)
    | _ => Except.error ("wrong argument count: " ++ tok)
  else Except.error ("unknown directive: " ++ tok)

/-- Modelled from the spec: the bytes a data directive emits, with
integer arguments evaluated over the symbol map.  Section switches,
`.align` and `.globl` emit nothing. -/
def directiveData (syms : SymbolMap) (tok : String) (args : List String) :
    Except String (List Nat) :=
  if tok = ".word" then
    match args.mapM (evalImmExpr syms) with
    | Except.ok vs => Except.ok (vs.flatMap (fun v => wordBytes (toUnsigned 32 v)))
    | Except.error e => Except.error e
  else if tok = ".half" then
    match args.mapM (evalImmExpr syms) with
    | Except.ok vs => Except.ok (vs.flatMap (fun v => halfBytes (toUnsigned 16 v)))
    | Except.error e => Except.error e
  else if tok = ".byte" then
    match args.mapM (evalImmExpr syms) with
    | Except.ok vs => Except.ok (vs.map (fun v => toUnsigned 8 v))
    | Except.error e => Except.error e
  else if tok = ".string" ∨ tok = ".asciz" then
    match args.mapM stringInterior with
    | some strs => Except.ok (strs.flatMap (fun cs => cs.map Char.toNat ++ [0]))
    | none => Except.error ("invalid string literal in " ++ tok)
  else if tok = ".ascii" then
    match args.mapM stringInterior with
    | some strs => Except.ok (strs.flatMap (fun cs => cs.map Char.toNat))
    | none => Except.error ("invalid string literal in " ++ tok)
  else if tok = ".zero" then
    match args with
    | [a] =>
      match evalImmExpr [] a with
      | Except.ok v => Except.ok (List.replicate v.toNat 0)
      | Except.error e => Except.error e
    | _ => Except.error ("wrong argument count: " ++ tok)
  else Except.ok []

/-! ## The four passes

Modelled from the spec §4.2–§4.6 and the pass signatures of
`assembler.h`: each pass returns either its continuation artifact or its
error vector; within a pass, errors are collected and processing
continues. -/

/-- Section base addresses (ISA-defined constants; `.text` at `0x0`). -/
def sectionBase (s : String) : Nat :=
  if s = ".text" then 0
  else if s = ".data" then 0x10000000
  else 0x11000000

/-- Set key `k` to `v` in a string-keyed association list. -/
def updCount (m : List (String × Nat)) (k : String) (v : Nat) : List (String × Nat) :=
  match m with
  | [] => [(k, v)]
  | (k', v') :: rest => if k' = k then (k, v) :: rest else (k', v') :: updCount rest k v

/-- Current count for key `k` (0 when absent). -/
def getCount (m : List (String × Nat)) (k : String) : Nat :=
  (lookupSym m k).getD 0

/-- Modelled from the spec §4.2 (`pass0`): walk the physical lines,
tokenize each and record non-empty lines with their 1-based numbers;
errors accumulate. -/
def pass0Go : List String → Nat → Program × Errors
  | [], _ => ([], [])
  | line :: rest, n =>
    let r := pass0Go rest (n + 1)
    match tokenize line with
    | Except.error e => (r.1, (n, e) :: r.2)
    | Except.ok [] => r
    | Except.ok toks => (⟨n, [], toks⟩ :: r.1, r.2)

/-- Pass 0: line tokenization and source line recording. -/
def pass0 (src : List String) : Except Errors Program :=
  let r := pass0Go src 1
  if r.2 = [] then Except.ok r.1 else Except.error r.2

/-- Modelled from the spec §4.3 (`pass1` step): split the leading labels,
then expand a pseudo-instruction; the first expanded line keeps the
labels, later expanded lines keep only the source line number. -/
def pass1Line (l : SourceLine) : Except Error (List SourceLine) :=
  match splitSymbols l.tokens with
  | Except.error e => Except.error (l.source_line, e)
  | Except.ok (syms, rest) =>
    if rest = [] then Except.ok [⟨l.source_line, syms, []⟩]
    else
      match expandPseudo rest with
      | Except.error e => Except.error (l.source_line, e)
      | Except.ok none => Except.ok [⟨l.source_line, syms, rest⟩]
      | Except.ok (some ls) =>
        match ls with
        | [] => Except.ok [⟨l.source_line, syms, []⟩]
        | first :: more =>
          Except.ok (⟨l.source_line, syms, first⟩ ::
            more.map (fun ts => ⟨l.source_line, [], ts⟩))

/-- Walk the program expanding each line, accumulating errors. -/
def pass1Go : Program → Program × Errors
  | [] => ([], [])
  | l :: ls =>
    let r := pass1Go ls
    match pass1Line l with
    | Except.ok ex => (ex ++ r.1, r.2)
    | Except.error e => (r.1, e :: r.2)

/-- Pass 1: pseudo-instruction expansion. -/
def pass1 (p : Program) : Except Errors Program :=
  let r := pass1Go p
  if r.2 = [] then Except.ok r.1 else Except.error r.2

/-- State of the pass-2 layout walk: per-section cursors, the current
section, the symbol map under construction and the collected errors. -/
structure P2State where
  cursors : List (String × Nat)
  cur : String
  syms : SymbolMap
  errs : Errors
deriving DecidableEq, Repr

/-- Bind each label of a line to the current section cursor; rebinding a
symbol is an error. -/
def bindSyms (st : P2State) (lineNo : Nat) (names : List String) : P2State :=
  match names with
  | [] => st
  | s :: rest =>
    match lookupSym st.syms s with
    | some _ =>
      bindSyms { st with errs := st.errs ++ [(lineNo, "duplicate symbol: " ++ s)] }
        lineNo rest
    | none =>
      bindSyms
        { st with
          syms := st.syms ++ [(s, sectionBase st.cur + getCount st.cursors st.cur)] }
        lineNo rest

/-- Modelled from the spec §4.5: one pass-2 step: bind the line's labels,
then switch sections or advance the cursor by the line's size. -/
def pass2Line (st : P2State) (l : SourceLine) : P2State :=
  let st := bindSyms st l.source_line l.symbols
  match l.tokens with
  | [] => st
  | tok :: args =>
    if isDirTok tok then
      match directiveEffect tok args with
      | Except.error e => { st with errs := st.errs ++ [(l.source_line, e)] }
      | Except.ok (DirEffect.switchSec s) => { st with cur := s }
      | Except.ok (DirEffect.emit n) =>
        { st with cursors := updCount st.cursors st.cur (getCount st.cursors st.cur + n) }
      | Except.ok (DirEffect.alignTo e) =>
        { st with
          cursors := updCount st.cursors st.cur
            (alignUp (getCount st.cursors st.cur) (2 ^ e)) }
    else
      { st with cursors := updCount st.cursors st.cur (getCount st.cursors st.cur + 4) }

/-- Walk the program recording symbols and layout. -/
def pass2Go : Program → P2State → P2State
  | [], st => st
  | l :: ls, st => pass2Go ls (pass2Line st l)

/-- Pass 2: symbol binding and layout; yields the complete symbol map. -/
def pass2 (p : Program) : Except Errors SymbolMap :=
  let st := pass2Go p ⟨[], ".text", [], []⟩
  if st.errs = [] then Except.ok st.syms else Except.error st.errs

/-- State of the pass-3 encoding walk: per-section byte buffers, the
current section, and the collected errors. -/
structure P3State where
  sections : List (String × List Nat)
  cur : String
  errs : Errors
deriving DecidableEq, Repr

/-- Bytes of a section buffer (empty when the section does not exist). -/
def secData (secs : List (String × List Nat)) (k : String) : List Nat :=
  (lookupSym secs k).getD []

/-- Append bytes to a section buffer, creating the section if needed. -/
def appendSec (secs : List (String × List Nat)) (k : String) (bs : List Nat) :
    List (String × List Nat) :=
  match secs with
  | [] => [(k, bs)]
  | (k', d) :: rest =>
    if k' = k then (k, d ++ bs) :: rest else (k', d) :: appendSec rest k bs

/-- Modelled from the spec §4.6: execute one directive in pass 3: switch
sections, pad for `.align`, or append the directive's bytes at the
current cursor. -/
def execDirective (syms : SymbolMap) (st : P3State) (lineNo : Nat)
    (tok : String) (args : List String) : P3State :=
  match directiveEffect tok args with
  | Except.error e => { st with errs := st.errs ++ [(lineNo, e)] }
  | Except.ok (DirEffect.switchSec s) => { st with cur := s }
  | Except.ok (DirEffect.alignTo e) =>
    let addr := sectionBase st.cur + (secData st.sections st.cur).length
    let pad := alignUp addr (2 ^ e) - addr
    { st with sections := appendSec st.sections st.cur (List.replicate pad 0) }
  | Except.ok (DirEffect.emit _) =>
    match directiveData syms tok args with
    | Except.error e => { st with errs := st.errs ++ [(lineNo, e)] }
    | Except.ok bs => { st with sections := appendSec st.sections st.cur bs }

/-- Modelled from the spec §4.6: one pass-3 step: execute a directive or
encode an instruction at the current address, collecting its errors. -/
def pass3Line (syms : SymbolMap) (st : P3State) (l : SourceLine) : P3State :=
  match l.tokens with
  | [] => st
  | tok :: args =>
    if isDirTok tok then execDirective syms st l.source_line tok args
    else
      let pc := sectionBase st.cur + (secData st.sections st.cur).length
      match encodeInstr syms pc l.tokens with
      | Except.ok bs => { st with sections := appendSec st.sections st.cur bs }
      | Except.error es =>
        { st with errs := st.errs ++ es.map (fun e => (l.source_line, e)) }

/-- Walk the program encoding every line. -/
def pass3Go (syms : SymbolMap) : Program → P3State → P3State
  | [], st => st
  | l :: ls, st => pass3Go syms ls (pass3Line syms st l)

/-- Pass 3: machine-code translation; yields the section buffers. -/
def pass3 (p : Program) (syms : SymbolMap) :
    Except Errors (List (String × List Nat)) :=
  let st := pass3Go syms p ⟨[(".text", [])], ".text", []⟩
  if st.errs = [] then Except.ok st.sections else Except.error st.errs

/-- The program image: section buffers plus the symbol map. -/
structure AsmResult where
  sections : List (String × List Nat)
  symbols : SymbolMap
deriving DecidableEq, Repr

/-- Modelled from the spec §5/§9 (`Assembler::assemble`): run the passes
strictly in order 0→1→2→3; the first pass to produce errors terminates
the pipeline and its error vector is the result. -/
def assemble (src : List String) : Except Errors AsmResult :=
  match pass0 src with
  | Except.error e => Except.error e
  | Except.ok p0 =>
    match pass1 p0 with
    | Except.error e => Except.error e
    | Except.ok p1 =>
      match pass2 p1 with
      | Except.error e => Except.error e
      | Except.ok syms =>
        match pass3 p1 syms with
        | Except.error e => Except.error e
        | Except.ok secs => Except.ok ⟨secs, syms⟩

/-! ## Matcher

Modelled from the spec §4.8: the matcher iterates instruction descriptors
whose fixed-bit masks match (`(word & mask) == pattern`) and disassembles
the unique match by extracting each declared field
(`Matcher::matchInstruction`, `Instruction::disassemble`). -/

/-- An instruction descriptor entry of the matcher table: the mnemonic,
the fixed-bit mask and the fixed-bit pattern. -/
structure InstrDesc where
  name : String
  mask : Nat
  pattern : Nat
deriving DecidableEq, Repr

/-- Descriptor of `beq` (B-type: opcode and funct3 fixed). -/
def beqDesc : InstrDesc := ⟨"beq", 0x707F, 0x63⟩

/-- Descriptor of `addi` (I-type: opcode and funct3 fixed). -/
def addiDesc : InstrDesc := ⟨"addi", 0x707F, 0x13⟩

/-- Descriptor of `slti`. -/
def sltiDesc : InstrDesc := ⟨"slti", 0x707F, 0x2013⟩

/-- Descriptor of `xori`. -/
def xoriDesc : InstrDesc := ⟨"xori", 0x707F, 0x4013⟩

/-- Descriptor of `slli` (shift-immediate: opcode, funct3 and the upper
seven bits fixed). -/
def slliDesc : InstrDesc := ⟨"slli", 0xFE00707F, 0x1013⟩

/-- Descriptor of `srai`. -/
def sraiDesc : InstrDesc := ⟨"srai", 0xFE00707F, 0x40005013⟩

/-- Descriptor of `add` (R-type: opcode, funct3 and funct7 fixed). -/
def addDesc : InstrDesc := ⟨"add", 0xFE00707F, 0x33⟩

/-- Descriptor of `sub`. -/
def subDesc : InstrDesc := ⟨"sub", 0xFE00707F, 0x40000033⟩

/-- Modelled from the spec: the matcher table of instruction descriptors
(the RV32I instructions exercised by the matcher scenario). -/
def rv32iMatchTable : List InstrDesc :=
  [beqDesc, addiDesc, sltiDesc, xoriDesc, slliDesc, sraiDesc, addDesc, subDesc]

/-- Modelled from the spec: match a 32-bit word against the descriptor
table by its fixed-bit mask. -/
def matchInstruction (w : Nat) : Option InstrDesc :=
  rv32iMatchTable.find? (fun d => w &&& d.mask == d.pattern)

/-- Extract the `wd`-bit field of `w` at bit position `b`. -/
def extractField (w b wd : Nat) : Nat := (w >>> b) &&& (2 ^ wd - 1)

/-- Canonical register token of a register index (lowercase `x` names). -/
def regTok (n : Nat) : String := "x" ++ Nat.repr n

/-- Reassemble the spliced B-type branch offset of a word. -/
def bimmOf (w : Nat) : Nat :=
  extractField w 8 4 * 2 + extractField w 25 6 * 2 ^ 5 +
    extractField w 7 1 * 2 ^ 11 + extractField w 31 1 * 2 ^ 12

/-- Modelled from the spec: disassemble a matched word into canonical
operand tokens (lowercase register names, decimal immediates) by
extracting each declared field. -/
def disassembleWord (d : InstrDesc) (w : Nat) : List String :=
  if d.name = "add" ∨ d.name = "sub" then
    [d.name, regTok (extractField w 7 5), regTok (extractField w 15 5),
     regTok (extractField w 20 5)]
  else if d.name = "addi" ∨ d.name = "slti" ∨ d.name = "xori" then
    [d.name, regTok (extractField w 7 5), regTok (extractField w 15 5),
     toString (toSigned 12 (extractField w 20 12))]
  else if d.name = "slli" ∨ d.name = "srai" then
    [d.name, regTok (extractField w 7 5), regTok (extractField w 15 5),
     toString (extractField w 20 5)]
  else if d.name = "beq" then
    [d.name, regTok (extractField w 15 5), regTok (extractField w 20 5),
     toString (toSigned 13 (bimmOf w))]
  else [d.name]

/-- Encode `add rd, rs1, rs2`. -/
def encAdd (rd rs1 rs2 : Nat) : Nat := mkWord 0x33 rd 0 rs1 rs2

/-- Encode `sub rd, rs1, rs2`. -/
def encSub (rd rs1 rs2 : Nat) : Nat := mkWord 0x33 rd 0 rs1 (rs2 + 0x20 * 2 ^ 5)

/-- Encode `addi rd, rs1, imm`. -/
def encAddi (rd rs1 : Nat) (imm : Int) : Nat := mkWord 0x13 rd 0 rs1 (toUnsigned 12 imm)

/-- Encode `slti rd, rs1, imm`. -/
def encSlti (rd rs1 : Nat) (imm : Int) : Nat := mkWord 0x13 rd 2 rs1 (toUnsigned 12 imm)

/-- Encode `xori rd, rs1, imm`. -/
def encXori (rd rs1 : Nat) (imm : Int) : Nat := mkWord 0x13 rd 4 rs1 (toUnsigned 12 imm)

/-- Encode `slli rd, rs1, sh`. -/
def encSlli (rd rs1 sh : Nat) : Nat := mkWord 0x13 rd 1 rs1 sh

/-- Encode `srai rd, rs1, sh`. -/
def encSrai (rd rs1 sh : Nat) : Nat := mkWord 0x13 rd 5 rs1 (sh + 0x20 * 2 ^ 5)

/-- Encode `beq rs1, rs2, off` with a signed 13-bit branch offset. -/
def encBeq (rs1 rs2 : Nat) (off : Int) : Nat :=
  mkWord 0x63 (btypeLo (toUnsigned 13 off)) 0 rs1
    (rs2 + btypeHi (toUnsigned 13 off) * 2 ^ 5)

/-! ## String-directive programs

Shapes used to state the `.string` emission property (spec §6, §8
scenario 2). -/

/-- The token lines of a sequence of `.string` directives, numbered from
`n`. -/
def stringProg : List String → Nat → Program
  | [], _ => []
  | s :: rest, n =>
    ⟨n, [], [".string", "\"" ++ s ++ "\""]⟩ :: stringProg rest (n + 1)

/-- The bytes a sequence of `.string` directives emits: each string's
characters followed by a `NUL`, concatenated in order. -/
def strBytes (ss : List String) : List Nat :=
  ss.flatMap (fun s => s.data.map Char.toNat ++ [0])

/-! ## Line counting over expanded programs

Definitions used to state the `.text`-size invariant of the spec
(§8, invariant 4). -/

/-- Count of non-directive instruction lines of an expanded program,
irrespective of the section they fall in (the count named by the spec's
invariant). -/
def instrLineCount (p : Program) : Nat :=
  (p.filter (fun l =>
    match l.tokens with
    | [] => false
    | t :: _ => ! isDirTok t)).length

/-- Count of instruction lines executed while the current section is
`.text`, tracking section switches from the given initial section. -/
def textInstrCount : Program → String → Nat
  | [], _ => 0
  | l :: ls, cur =>
    match l.tokens with
    | [] => textInstrCount ls cur
    | t :: args =>
      if isDirTok t then
        match directiveEffect t args with
        | Except.ok (DirEffect.switchSec s) => textInstrCount ls s
        | _ => textInstrCount ls cur
      else (if cur = ".text" then 1 else 0) + textInstrCount ls cur

/-- Does the program avoid executing any byte-emitting or padding
directive while the current section is `.text`? -/
def noDataInText : Program → String → Bool
  | [], _ => true
  | l :: ls, cur =>
    match l.tokens with
    | [] => noDataInText ls cur
    | t :: args =>
      if isDirTok t then
        match directiveEffect t args with
        | Except.ok (DirEffect.switchSec s) => noDataInText ls s
        | _ => if cur = ".text" then false else noDataInText ls cur
      else noDataInText ls cur

/-! ## Bit-level lemmas for the matcher -/

/-- Bitwise AND splits at a bit boundary: when both low parts fit below
bit `k`, the AND of the composed values composes the ANDs of the parts. -/
theorem land_split {k a b ma mb : Nat} (ha : a < 2 ^ k) (hma : ma < 2 ^ k) :
    (a + b * 2 ^ k) &&& (ma + mb * 2 ^ k) = (a &&& ma) + (b &&& mb) * 2 ^ k := by
  have h1 : a + b * 2 ^ k = 2 ^ k * b + a := by ring
  have h2 : ma + mb * 2 ^ k = 2 ^ k * mb + ma := by ring
  have h3 : (a &&& ma) + (b &&& mb) * 2 ^ k = 2 ^ k * (b &&& mb) + (a &&& ma) := by
    ring
  rw [h1, h2, h3]
  apply Nat.eq_of_testBit_eq
  intro j
  rw [Nat.testBit_and, Nat.testBit_mul_pow_two_add _ ha,
    Nat.testBit_mul_pow_two_add _ hma,
    Nat.testBit_mul_pow_two_add _ (Nat.and_lt_two_pow a hma)]
  by_cases hj : j < k
  · simp [hj]
  · simp [hj]

/-- ANDing a composed instruction word with the I/B-type fixed-bit mask
`0x707F` keeps exactly the opcode and funct3 fields. -/
theorem mkWord_and_707F {opc s7 f3 s15 q : Nat} (h0 : opc < 2 ^ 7)
    (h7 : s7 < 2 ^ 5) (h12 : f3 < 2 ^ 3) (h15 : s15 < 2 ^ 5) :
    mkWord opc s7 f3 s15 q &&& 0x707F = opc + f3 * 2 ^ 12 := by
  have e : (0x707F : Nat) =
      2 ^ 7 - 1 + (0 + (2 ^ 3 - 1 + (0 + 0 * 2 ^ 5) * 2 ^ 3) * 2 ^ 5) * 2 ^ 7 := by
    norm_num
  rw [mkWord, e, land_split h0 (by norm_num), land_split h7 (by norm_num),
    land_split h12 (by norm_num), land_split h15 (by norm_num),
    Nat.and_pow_two_sub_one_of_lt_two_pow h0,
    Nat.and_pow_two_sub_one_of_lt_two_pow h12, Nat.and_zero, Nat.and_zero,
    Nat.and_zero]
  ring

/-- ANDing a composed instruction word with the R-type fixed-bit mask
`0xFE00707F` keeps exactly the opcode, funct3 and funct7 fields. -/
theorem mkWord_and_FE00707F {opc s7 f3 s15 q : Nat} (h0 : opc < 2 ^ 7)
    (h7 : s7 < 2 ^ 5) (h12 : f3 < 2 ^ 3) (h15 : s15 < 2 ^ 5) (hq : q < 2 ^ 12) :
    mkWord opc s7 f3 s15 q &&& 0xFE00707F =
      opc + f3 * 2 ^ 12 + q / 2 ^ 5 * 2 ^ 25 := by
  have e : (0xFE00707F : Nat) =
      2 ^ 7 - 1 +
        (0 + (2 ^ 3 - 1 + (0 + (0 + (2 ^ 7 - 1) * 2 ^ 5) * 2 ^ 5) * 2 ^ 3) * 2 ^ 5) *
          2 ^ 7 := by
    norm_num
  have hq' : q = q % 2 ^ 5 + q / 2 ^ 5 * 2 ^ 5 := (Nat.mod_add_div' q (2 ^ 5)).symm
  have hqlt : q / 2 ^ 5 < 2 ^ 7 := by omega
  rw [mkWord, e, hq', land_split h0 (by norm_num), land_split h7 (by norm_num),
    land_split h12 (by norm_num), land_split h15 (by norm_num),
    land_split (Nat.mod_lt q (by norm_num)) (by norm_num),
    Nat.and_pow_two_sub_one_of_lt_two_pow h0,
    Nat.and_pow_two_sub_one_of_lt_two_pow h12,
    Nat.and_pow_two_sub_one_of_lt_two_pow hqlt, Nat.and_zero, Nat.and_zero,
    Nat.and_zero]
  omega

/-- A field extraction is a shift followed by a mask, i.e. a divide and a
remainder. -/
theorem extractField_eq (w b wd : Nat) : extractField w b wd = w / 2 ^ b % 2 ^ wd := by
  rw [extractField, Nat.shiftRight_eq_div_pow, Nat.and_pow_two_sub_one_eq_mod]

/-- A 12-bit two's-complement encoding is below `2 ^ 12`. -/
theorem toUnsigned_lt_12 (v : Int) : toUnsigned 12 v < 2 ^ 12 := by
  simp only [toUnsigned]
  omega

/-- A 13-bit two's-complement encoding is below `2 ^ 13`. -/
theorem toUnsigned_lt_13 (v : Int) : toUnsigned 13 v < 2 ^ 13 := by
  simp only [toUnsigned]
  omega

/-- Decoding inverts the 12-bit two's-complement encoding on its signed
range. -/
theorem toSigned_toUnsigned_12 {v : Int} (h1 : -2048 ≤ v) (h2 : v ≤ 2047) :
    toSigned 12 (toUnsigned 12 v) = v := by
  simp only [toSigned, toUnsigned]
  split <;> omega

/-- Decoding inverts the 13-bit two's-complement encoding on its signed
range. -/
theorem toSigned_toUnsigned_13 {v : Int} (h1 : -4096 ≤ v) (h2 : v < 4096) :
    toSigned 13 (toUnsigned 13 v) = v := by
  simp only [toSigned, toUnsigned]
  split <;> omega

/-- Round trip for `add`: matching the encoded word yields the `add`
descriptor uniquely, and disassembly recovers the canonical operand
tokens. -/
theorem roundtrip_add {rd rs1 rs2 : Nat} (h1 : rd < 32) (h2 : rs1 < 32)
    (h3 : rs2 < 32) :
    matchInstruction (encAdd rd rs1 rs2) = some addDesc ∧
    (∀ d ∈ rv32iMatchTable, encAdd rd rs1 rs2 &&& d.mask = d.pattern → d = addDesc) ∧
    disassembleWord addDesc (encAdd rd rs1 rs2) =
      ["add", regTok rd, regTok rs1, regTok rs2] := by
  have hM1 : encAdd rd rs1 rs2 &&& 0x707F = 0x33 := by
    have h := mkWord_and_707F (q := rs2) (show (0x33 : Nat) < 2 ^ 7 by norm_num)
      (show rd < 2 ^ 5 by omega) (show (0 : Nat) < 2 ^ 3 by norm_num)
      (show rs1 < 2 ^ 5 by omega)
    simp only [encAdd] at h ⊢
    omega
  have hM2 : encAdd rd rs1 rs2 &&& 0xFE00707F = 0x33 := by
    have h := mkWord_and_FE00707F (show (0x33 : Nat) < 2 ^ 7 by norm_num)
      (show rd < 2 ^ 5 by omega) (show (0 : Nat) < 2 ^ 3 by norm_num)
      (show rs1 < 2 ^ 5 by omega) (show rs2 < 2 ^ 12 by omega)
    simp only [encAdd] at h ⊢
    omega
  refine ⟨?_, ?_, ?_⟩
  · simp only [matchInstruction, rv32iMatchTable, List.find?, beqDesc, addiDesc,
      sltiDesc, xoriDesc, slliDesc, sraiDesc, addDesc, subDesc, hM1, hM2]
    rfl
  · intro d hd h
    simp only [rv32iMatchTable, List.mem_cons, List.not_mem_nil, or_false] at hd
    rcases hd with rfl | rfl | rfl | rfl | rfl | rfl | rfl | rfl
    · exact absurd h (by simp only [beqDesc]; rw [hM1]; omega)
    · exact absurd h (by simp only [addiDesc]; rw [hM1]; omega)
    · exact absurd h (by simp only [sltiDesc]; rw [hM1]; omega)
    · exact absurd h (by simp only [xoriDesc]; rw [hM1]; omega)
    · exact absurd h (by simp only [slliDesc]; rw [hM2]; omega)
    · exact absurd h (by simp only [sraiDesc]; rw [hM2]; omega)
    · rfl
    · exact absurd h (by simp only [subDesc]; rw [hM2]; omega)
  · have x1 : extractField (encAdd rd rs1 rs2) 7 5 = rd := by
      rw [extractField_eq]; simp only [encAdd, mkWord]; omega
    have x2 : extractField (encAdd rd rs1 rs2) 15 5 = rs1 := by
      rw [extractField_eq]; simp only [encAdd, mkWord]; omega
    have x3 : extractField (encAdd rd rs1 rs2) 20 5 = rs2 := by
      rw [extractField_eq]; simp only [encAdd, mkWord]; omega
    simp [disassembleWord, addDesc, x1, x2, x3]

/-- Round trip for `sub`. -/
theorem roundtrip_sub {rd rs1 rs2 : Nat} (h1 : rd < 32) (h2 : rs1 < 32)
    (h3 : rs2 < 32) :
    matchInstruction (encSub rd rs1 rs2) = some subDesc ∧
    (∀ d ∈ rv32iMatchTable, encSub rd rs1 rs2 &&& d.mask = d.pattern → d = subDesc) ∧
    disassembleWord subDesc (encSub rd rs1 rs2) =
      ["sub", regTok rd, regTok rs1, regTok rs2] := by
  have hM1 : encSub rd rs1 rs2 &&& 0x707F = 0x33 := by
    have h := mkWord_and_707F (q := rs2 + 0x20 * 2 ^ 5)
      (show (0x33 : Nat) < 2 ^ 7 by norm_num) (show rd < 2 ^ 5 by omega)
      (show (0 : Nat) < 2 ^ 3 by norm_num) (show rs1 < 2 ^ 5 by omega)
    simp only [encSub] at h ⊢
    omega
  have hM2 : encSub rd rs1 rs2 &&& 0xFE00707F = 0x40000033 := by
    have h := mkWord_and_FE00707F (show (0x33 : Nat) < 2 ^ 7 by norm_num)
      (show rd < 2 ^ 5 by omega) (show (0 : Nat) < 2 ^ 3 by norm_num)
      (show rs1 < 2 ^ 5 by omega) (show rs2 + 0x20 * 2 ^ 5 < 2 ^ 12 by omega)
    simp only [encSub] at h ⊢
    omega
  refine ⟨?_, ?_, ?_⟩
  · simp only [matchInstruction, rv32iMatchTable, List.find?, beqDesc, addiDesc,
      sltiDesc, xoriDesc, slliDesc, sraiDesc, addDesc, subDesc, hM1, hM2]
    rfl
  · intro d hd h
    simp only [rv32iMatchTable, List.mem_cons, List.not_mem_nil, or_false] at hd
    rcases hd with rfl | rfl | rfl | rfl | rfl | rfl | rfl | rfl
    · exact absurd h (by simp only [beqDesc]; rw [hM1]; omega)
    · exact absurd h (by simp only [addiDesc]; rw [hM1]; omega)
    · exact absurd h (by simp only [sltiDesc]; rw [hM1]; omega)
    · exact absurd h (by simp only [xoriDesc]; rw [hM1]; omega)
    · exact absurd h (by simp only [slliDesc]; rw [hM2]; omega)
    · exact absurd h (by simp only [sraiDesc]; rw [hM2]; omega)
    · exact absurd h (by simp only [addDesc]; rw [hM2]; omega)
    · rfl
  · have x1 : extractField (encSub rd rs1 rs2) 7 5 = rd := by
      rw [extractField_eq]; simp only [encSub, mkWord]; omega
    have x2 : extractField (encSub rd rs1 rs2) 15 5 = rs1 := by
      rw [extractField_eq]; simp only [encSub, mkWord]; omega
    have x3 : extractField (encSub rd rs1 rs2) 20 5 = rs2 := by
      rw [extractField_eq]; simp only [encSub, mkWord]; omega
    simp [disassembleWord, subDesc, x1, x2, x3]

/-- Round trip for `addi`, up to canonicalization of the decimal
immediate. -/
theorem roundtrip_addi {rd rs1 : Nat} {imm : Int} (h1 : rd < 32) (h2 : rs1 < 32)
    (h3 : -2048 ≤ imm) (h4 : imm ≤ 2047) :
    matchInstruction (encAddi rd rs1 imm) = some addiDesc ∧
    (∀ d ∈ rv32iMatchTable, encAddi rd rs1 imm &&& d.mask = d.pattern → d = addiDesc) ∧
    disassembleWord addiDesc (encAddi rd rs1 imm) =
      ["addi", regTok rd, regTok rs1, toString imm] := by
  have hq := toUnsigned_lt_12 imm
  have hM1 : encAddi rd rs1 imm &&& 0x707F = 0x13 := by
    have h := mkWord_and_707F (q := toUnsigned 12 imm)
      (show (0x13 : Nat) < 2 ^ 7 by norm_num) (show rd < 2 ^ 5 by omega)
      (show (0 : Nat) < 2 ^ 3 by norm_num) (show rs1 < 2 ^ 5 by omega)
    simp only [encAddi] at h ⊢
    omega
  have hM2 : encAddi rd rs1 imm &&& 0xFE00707F =
      0x13 + toUnsigned 12 imm / 2 ^ 5 * 2 ^ 25 := by
    have h := mkWord_and_FE00707F (show (0x13 : Nat) < 2 ^ 7 by norm_num)
      (show rd < 2 ^ 5 by omega) (show (0 : Nat) < 2 ^ 3 by norm_num)
      (show rs1 < 2 ^ 5 by omega) hq
    simp only [encAddi] at h ⊢
    omega
  refine ⟨?_, ?_, ?_⟩
  · simp only [matchInstruction, rv32iMatchTable, List.find?, beqDesc, addiDesc,
      sltiDesc, xoriDesc, slliDesc, sraiDesc, addDesc, subDesc, hM1, hM2]
    rfl
  · intro d hd h
    simp only [rv32iMatchTable, List.mem_cons, List.not_mem_nil, or_false] at hd
    rcases hd with rfl | rfl | rfl | rfl | rfl | rfl | rfl | rfl
    · exact absurd h (by simp only [beqDesc]; rw [hM1]; omega)
    · rfl
    · exact absurd h (by simp only [sltiDesc]; rw [hM1]; omega)
    · exact absurd h (by simp only [xoriDesc]; rw [hM1]; omega)
    · exact absurd h (by simp only [slliDesc]; rw [hM2]; omega)
    · exact absurd h (by simp only [sraiDesc]; rw [hM2]; omega)
    · exact absurd h (by simp only [addDesc]; rw [hM2]; omega)
    · exact absurd h (by simp only [subDesc]; rw [hM2]; omega)
  · have x1 : extractField (encAddi rd rs1 imm) 7 5 = rd := by
      rw [extractField_eq]; simp only [encAddi, mkWord]; omega
    have x2 : extractField (encAddi rd rs1 imm) 15 5 = rs1 := by
      rw [extractField_eq]; simp only [encAddi, mkWord]; omega
    have x3 : extractField (encAddi rd rs1 imm) 20 12 = toUnsigned 12 imm := by
      rw [extractField_eq]; simp only [encAddi, mkWord]; omega
    simp [disassembleWord, addiDesc, x1, x2, x3, toSigned_toUnsigned_12 h3 h4]

/-- Round trip for `slti`. -/
theorem roundtrip_slti {rd rs1 : Nat} {imm : Int} (h1 : rd < 32) (h2 : rs1 < 32)
    (h3 : -2048 ≤ imm) (h4 : imm ≤ 2047) :
    matchInstruction (encSlti rd rs1 imm) = some sltiDesc ∧
    (∀ d ∈ rv32iMatchTable, encSlti rd rs1 imm &&& d.mask = d.pattern → d = sltiDesc) ∧
    disassembleWord sltiDesc (encSlti rd rs1 imm) =
      ["slti", regTok rd, regTok rs1, toString imm] := by
  have hq := toUnsigned_lt_12 imm
  have hM1 : encSlti rd rs1 imm &&& 0x707F = 0x2013 := by
    have h := mkWord_and_707F (q := toUnsigned 12 imm)
      (show (0x13 : Nat) < 2 ^ 7 by norm_num) (show rd < 2 ^ 5 by omega)
      (show (2 : Nat) < 2 ^ 3 by norm_num) (show rs1 < 2 ^ 5 by omega)
    simp only [encSlti] at h ⊢
    omega
  have hM2 : encSlti rd rs1 imm &&& 0xFE00707F =
      0x2013 + toUnsigned 12 imm / 2 ^ 5 * 2 ^ 25 := by
    have h := mkWord_and_FE00707F (show (0x13 : Nat) < 2 ^ 7 by norm_num)
      (show rd < 2 ^ 5 by omega) (show (2 : Nat) < 2 ^ 3 by norm_num)
      (show rs1 < 2 ^ 5 by omega) hq
    simp only [encSlti] at h ⊢
    omega
  refine ⟨?_, ?_, ?_⟩
  · simp only [matchInstruction, rv32iMatchTable, List.find?, beqDesc, addiDesc,
      sltiDesc, xoriDesc, slliDesc, sraiDesc, addDesc, subDesc, hM1, hM2]
    rfl
  · intro d hd h
    simp only [rv32iMatchTable, List.mem_cons, List.not_mem_nil, or_false] at hd
    rcases hd with rfl | rfl | rfl | rfl | rfl | rfl | rfl | rfl
    · exact absurd h (by simp only [beqDesc]; rw [hM1]; omega)
    · exact absurd h (by simp only [addiDesc]; rw [hM1]; omega)
    · rfl
    · exact absurd h (by simp only [xoriDesc]; rw [hM1]; omega)
    · exact absurd h (by simp only [slliDesc]; rw [hM2]; omega)
    · exact absurd h (by simp only [sraiDesc]; rw [hM2]; omega)
    · exact absurd h (by simp only [addDesc]; rw [hM2]; omega)
    · exact absurd h (by simp only [subDesc]; rw [hM2]; omega)
  · have x1 : extractField (encSlti rd rs1 imm) 7 5 = rd := by
      rw [extractField_eq]; simp only [encSlti, mkWord]; omega
    have x2 : extractField (encSlti rd rs1 imm) 15 5 = rs1 := by
      rw [extractField_eq]; simp only [encSlti, mkWord]; omega
    have x3 : extractField (encSlti rd rs1 imm) 20 12 = toUnsigned 12 imm := by
      rw [extractField_eq]; simp only [encSlti, mkWord]; omega
    simp [disassembleWord, sltiDesc, x1, x2, x3, toSigned_toUnsigned_12 h3 h4]

/-- Round trip for `xori`. -/
theorem roundtrip_xori {rd rs1 : Nat} {imm : Int} (h1 : rd < 32) (h2 : rs1 < 32)
    (h3 : -2048 ≤ imm) (h4 : imm ≤ 2047) :
    matchInstruction (encXori rd rs1 imm) = some xoriDesc ∧
    (∀ d ∈ rv32iMatchTable, encXori rd rs1 imm &&& d.mask = d.pattern → d = xoriDesc) ∧
    disassembleWord xoriDesc (encXori rd rs1 imm) =
      ["xori", regTok rd, regTok rs1, toString imm] := by
  have hq := toUnsigned_lt_12 imm
  have hM1 : encXori rd rs1 imm &&& 0x707F = 0x4013 := by
    have h := mkWord_and_707F (q := toUnsigned 12 imm)
      (show (0x13 : Nat) < 2 ^ 7 by norm_num) (show rd < 2 ^ 5 by omega)
      (show (4 : Nat) < 2 ^ 3 by norm_num) (show rs1 < 2 ^ 5 by omega)
    simp only [encXori] at h ⊢
    omega
  have hM2 : encXori rd rs1 imm &&& 0xFE00707F =
      0x4013 + toUnsigned 12 imm / 2 ^ 5 * 2 ^ 25 := by
    have h := mkWord_and_FE00707F (show (0x13 : Nat) < 2 ^ 7 by norm_num)
      (show rd < 2 ^ 5 by omega) (show (4 : Nat) < 2 ^ 3 by norm_num)
      (show rs1 < 2 ^ 5 by omega) hq
    simp only [encXori] at h ⊢
    omega
  refine ⟨?_, ?_, ?_⟩
  · simp only [matchInstruction, rv32iMatchTable, List.find?, beqDesc, addiDesc,
      sltiDesc, xoriDesc, slliDesc, sraiDesc, addDesc, subDesc, hM1, hM2]
    rfl
  · intro d hd h
    simp only [rv32iMatchTable, List.mem_cons, List.not_mem_nil, or_false] at hd
    rcases hd with rfl | rfl | rfl | rfl | rfl | rfl | rfl | rfl
    · exact absurd h (by simp only [beqDesc]; rw [hM1]; omega)
    · exact absurd h (by simp only [addiDesc]; rw [hM1]; omega)
    · exact absurd h (by simp only [sltiDesc]; rw [hM1]; omega)
    · rfl
    · exact absurd h (by simp only [slliDesc]; rw [hM2]; omega)
    · exact absurd h (by simp only [sraiDesc]; rw [hM2]; omega)
    · exact absurd h (by simp only [addDesc]; rw [hM2]; omega)
    · exact absurd h (by simp only [subDesc]; rw [hM2]; omega)
  · have x1 : extractField (encXori rd rs1 imm) 7 5 = rd := by
      rw [extractField_eq]; simp only [encXori, mkWord]; omega
    have x2 : extractField (encXori rd rs1 imm) 15 5 = rs1 := by
      rw [extractField_eq]; simp only [encXori, mkWord]; omega
    have x3 : extractField (encXori rd rs1 imm) 20 12 = toUnsigned 12 imm := by
      rw [extractField_eq]; simp only [encXori, mkWord]; omega
    simp [disassembleWord, xoriDesc, x1, x2, x3, toSigned_toUnsigned_12 h3 h4]

/-- Round trip for `slli`. -/
theorem roundtrip_slli {rd rs1 sh : Nat} (h1 : rd < 32) (h2 : rs1 < 32)
    (h3 : sh < 32) :
    matchInstruction (encSlli rd rs1 sh) = some slliDesc ∧
    (∀ d ∈ rv32iMatchTable, encSlli rd rs1 sh &&& d.mask = d.pattern → d = slliDesc) ∧
    disassembleWord slliDesc (encSlli rd rs1 sh) =
      ["slli", regTok rd, regTok rs1, toString sh] := by
  have hM1 : encSlli rd rs1 sh &&& 0x707F = 0x1013 := by
    have h := mkWord_and_707F (q := sh) (show (0x13 : Nat) < 2 ^ 7 by norm_num)
      (show rd < 2 ^ 5 by omega) (show (1 : Nat) < 2 ^ 3 by norm_num)
      (show rs1 < 2 ^ 5 by omega)
    simp only [encSlli] at h ⊢
    omega
  have hM2 : encSlli rd rs1 sh &&& 0xFE00707F = 0x1013 := by
    have h := mkWord_and_FE00707F (show (0x13 : Nat) < 2 ^ 7 by norm_num)
      (show rd < 2 ^ 5 by omega) (show (1 : Nat) < 2 ^ 3 by norm_num)
      (show rs1 < 2 ^ 5 by omega) (show sh < 2 ^ 12 by omega)
    simp only [encSlli] at h ⊢
    omega
  refine ⟨?_, ?_, ?_⟩
  · simp only [matchInstruction, rv32iMatchTable, List.find?, beqDesc, addiDesc,
      sltiDesc, xoriDesc, slliDesc, sraiDesc, addDesc, subDesc, hM1, hM2]
    rfl
  · intro d hd h
    simp only [rv32iMatchTable, List.mem_cons, List.not_mem_nil, or_false] at hd
    rcases hd with rfl | rfl | rfl | rfl | rfl | rfl | rfl | rfl
    · exact absurd h (by simp only [beqDesc]; rw [hM1]; omega)
    · exact absurd h (by simp only [addiDesc]; rw [hM1]; omega)
    · exact absurd h (by simp only [sltiDesc]; rw [hM1]; omega)
    · exact absurd h (by simp only [xoriDesc]; rw [hM1]; omega)
    · rfl
    · exact absurd h (by simp only [sraiDesc]; rw [hM2]; omega)
    · exact absurd h (by simp only [addDesc]; rw [hM2]; omega)
    · exact absurd h (by simp only [subDesc]; rw [hM2]; omega)
  · have x1 : extractField (encSlli rd rs1 sh) 7 5 = rd := by
      rw [extractField_eq]; simp only [encSlli, mkWord]; omega
    have x2 : extractField (encSlli rd rs1 sh) 15 5 = rs1 := by
      rw [extractField_eq]; simp only [encSlli, mkWord]; omega
    have x3 : extractField (encSlli rd rs1 sh) 20 5 = sh := by
      rw [extractField_eq]; simp only [encSlli, mkWord]; omega
    simp [disassembleWord, slliDesc, x1, x2, x3]

/-- Round trip for `srai`. -/
theorem roundtrip_srai {rd rs1 sh : Nat} (h1 : rd < 32) (h2 : rs1 < 32)
    (h3 : sh < 32) :
    matchInstruction (encSrai rd rs1 sh) = some sraiDesc ∧
    (∀ d ∈ rv32iMatchTable, encSrai rd rs1 sh &&& d.mask = d.pattern → d = sraiDesc) ∧
    disassembleWord sraiDesc (encSrai rd rs1 sh) =
      ["srai", regTok rd, regTok rs1, toString sh] := by
  have hM1 : encSrai rd rs1 sh &&& 0x707F = 0x5013 := by
    have h := mkWord_and_707F (q := sh + 0x20 * 2 ^ 5)
      (show (0x13 : Nat) < 2 ^ 7 by norm_num) (show rd < 2 ^ 5 by omega)
      (show (5 : Nat) < 2 ^ 3 by norm_num) (show rs1 < 2 ^ 5 by omega)
    simp only [encSrai] at h ⊢
    omega
  have hM2 : encSrai rd rs1 sh &&& 0xFE00707F = 0x40005013 := by
    have h := mkWord_and_FE00707F (show (0x13 : Nat) < 2 ^ 7 by norm_num)
      (show rd < 2 ^ 5 by omega) (show (5 : Nat) < 2 ^ 3 by norm_num)
      (show rs1 < 2 ^ 5 by omega) (show sh + 0x20 * 2 ^ 5 < 2 ^ 12 by omega)
    simp only [encSrai] at h ⊢
    omega
  refine ⟨?_, ?_, ?_⟩
  · simp only [matchInstruction, rv32iMatchTable, List.find?, beqDesc, addiDesc,
      sltiDesc, xoriDesc, slliDesc, sraiDesc, addDesc, subDesc, hM1, hM2]
    rfl
  · intro d hd h
    simp only [rv32iMatchTable, List.mem_cons, List.not_mem_nil, or_false] at hd
    rcases hd with rfl | rfl | rfl | rfl | rfl | rfl | rfl | rfl
    · exact absurd h (by simp only [beqDesc]; rw [hM1]; omega)
    · exact absurd h (by simp only [addiDesc]; rw [hM1]; omega)
    · exact absurd h (by simp only [sltiDesc]; rw [hM1]; omega)
    · exact absurd h (by simp only [xoriDesc]; rw [hM1]; omega)
    · exact absurd h (by simp only [slliDesc]; rw [hM2]; omega)
    · rfl
    · exact absurd h (by simp only [addDesc]; rw [hM2]; omega)
    · exact absurd h (by simp only [subDesc]; rw [hM2]; omega)
  · have x1 : extractField (encSrai rd rs1 sh) 7 5 = rd := by
      rw [extractField_eq]; simp only [encSrai, mkWord]; omega
    have x2 : extractField (encSrai rd rs1 sh) 15 5 = rs1 := by
      rw [extractField_eq]; simp only [encSrai, mkWord]; omega
    have x3 : extractField (encSrai rd rs1 sh) 20 5 = sh := by
      rw [extractField_eq]; simp only [encSrai, mkWord]; omega
    simp [disassembleWord, sraiDesc, x1, x2, x3]

/-- Round trip for `beq`: the spliced B-type offset is reassembled and
decodes back to the signed branch offset. -/
theorem roundtrip_beq {rs1 rs2 : Nat} {off : Int} (h1 : rs1 < 32) (h2 : rs2 < 32)
    (h3 : -4096 ≤ off) (h4 : off < 4096) (h5 : off % 2 = 0) :
    matchInstruction (encBeq rs1 rs2 off) = some beqDesc ∧
    (∀ d ∈ rv32iMatchTable, encBeq rs1 rs2 off &&& d.mask = d.pattern → d = beqDesc) ∧
    disassembleWord beqDesc (encBeq rs1 rs2 off) =
      ["beq", regTok rs1, regTok rs2, toString off] := by
  have hu := toUnsigned_lt_13 off
  have hlo : btypeLo (toUnsigned 13 off) < 2 ^ 5 := by
    simp only [btypeLo]; omega
  have hhi : btypeHi (toUnsigned 13 off) < 2 ^ 7 := by
    simp only [btypeHi]; omega
  have hM1 : encBeq rs1 rs2 off &&& 0x707F = 0x63 := by
    have h := mkWord_and_707F (q := rs2 + btypeHi (toUnsigned 13 off) * 2 ^ 5)
      (show (0x63 : Nat) < 2 ^ 7 by norm_num) hlo
      (show (0 : Nat) < 2 ^ 3 by norm_num) (show rs1 < 2 ^ 5 by omega)
    simp only [encBeq] at h ⊢
    omega
  have hM2 : encBeq rs1 rs2 off &&& 0xFE00707F =
      0x63 + btypeHi (toUnsigned 13 off) * 2 ^ 25 := by
    have h := mkWord_and_FE00707F (show (0x63 : Nat) < 2 ^ 7 by norm_num) hlo
      (show (0 : Nat) < 2 ^ 3 by norm_num) (show rs1 < 2 ^ 5 by omega)
      (show rs2 + btypeHi (toUnsigned 13 off) * 2 ^ 5 < 2 ^ 12 by omega)
    simp only [encBeq] at h ⊢
    omega
  refine ⟨?_, ?_, ?_⟩
  · simp only [matchInstruction, rv32iMatchTable, List.find?, beqDesc, hM1]
    rfl
  · intro d hd h
    simp only [rv32iMatchTable, List.mem_cons, List.not_mem_nil, or_false] at hd
    rcases hd with rfl | rfl | rfl | rfl | rfl | rfl | rfl | rfl
    · rfl
    · exact absurd h (by simp only [addiDesc]; rw [hM1]; omega)
    · exact absurd h (by simp only [sltiDesc]; rw [hM1]; omega)
    · exact absurd h (by simp only [xoriDesc]; rw [hM1]; omega)
    · exact absurd h (by simp only [slliDesc]; rw [hM2]; omega)
    · exact absurd h (by simp only [sraiDesc]; rw [hM2]; omega)
    · exact absurd h (by simp only [addDesc]; rw [hM2]; omega)
    · exact absurd h (by simp only [subDesc]; rw [hM2]; omega)
  · have x1 : extractField (encBeq rs1 rs2 off) 15 5 = rs1 := by
      rw [extractField_eq]; simp only [encBeq, mkWord]; omega
    have x2 : extractField (encBeq rs1 rs2 off) 20 5 = rs2 := by
      rw [extractField_eq]; simp only [encBeq, mkWord]; omega
    have e7 : extractField (encBeq rs1 rs2 off) 7 1 =
        toUnsigned 13 off / 2 ^ 11 % 2 := by
      have a : extractField (encBeq rs1 rs2 off) 7 1 =
          btypeLo (toUnsigned 13 off) % 2 := by
        rw [extractField_eq]; simp only [encBeq, mkWord]; omega
      rw [a, btypeLo]; omega
    have e8 : extractField (encBeq rs1 rs2 off) 8 4 =
        toUnsigned 13 off / 2 % 2 ^ 4 := by
      have a : extractField (encBeq rs1 rs2 off) 8 4 =
          btypeLo (toUnsigned 13 off) / 2 := by
        rw [extractField_eq]; simp only [encBeq, mkWord]; omega
      rw [a, btypeLo]; omega
    have e25 : extractField (encBeq rs1 rs2 off) 25 6 =
        toUnsigned 13 off / 2 ^ 5 % 2 ^ 6 := by
      have a : extractField (encBeq rs1 rs2 off) 25 6 =
          btypeHi (toUnsigned 13 off) % 2 ^ 6 := by
        rw [extractField_eq]; simp only [encBeq, mkWord]; omega
      rw [a, btypeHi]; omega
    have e31 : extractField (encBeq rs1 rs2 off) 31 1 =
        toUnsigned 13 off / 2 ^ 12 % 2 := by
      have a : extractField (encBeq rs1 rs2 off) 31 1 =
          btypeHi (toUnsigned 13 off) / 2 ^ 6 := by
        rw [extractField_eq]; simp only [encBeq, mkWord]; omega
      rw [a, btypeHi]; omega
    have heven : toUnsigned 13 off % 2 = 0 := by
      simp only [toUnsigned]; omega
    have xb : bimmOf (encBeq rs1 rs2 off) = toUnsigned 13 off := by
      rw [bimmOf, e7, e8, e25, e31]; omega
    simp [disassembleWord, beqDesc, x1, x2, xb, toSigned_toUnsigned_13 h3 h4]

/-! ## Pass-3 invariants -/

/-- If the collected operand errors vanish, every operand result was a
success. -/
theorem operandErrors_eq_nil {rs : List (Except String Nat)}
    (h : operandErrors rs = []) : ∀ r ∈ rs, ∃ v, r = Except.ok v := by
  induction rs with
  | nil => intro r hr; cases hr
  | cons a rest ih =>
    intro r hr
    cases a with
    | ok v =>
      rcases List.mem_cons.mp hr with rfl | hr
      · exact ⟨v, rfl⟩
      · exact ih (by simpa [operandErrors] using h) r hr
    | error e => simp [operandErrors] at h

/-- Specialization of `operandErrors_eq_nil` to three operands. -/
theorem operandErrors_triple {a b c : Except String Nat}
    (h : operandErrors [a, b, c] = []) :
    (∃ x, a = Except.ok x) ∧ (∃ y, b = Except.ok y) ∧ (∃ z, c = Except.ok z) :=
  ⟨operandErrors_eq_nil h a (by simp), operandErrors_eq_nil h b (by simp),
    operandErrors_eq_nil h c (by simp)⟩

/-- Specialization of `operandErrors_eq_nil` to two operands. -/
theorem operandErrors_pair {a b : Except String Nat}
    (h : operandErrors [a, b] = []) :
    (∃ x, a = Except.ok x) ∧ (∃ y, b = Except.ok y) :=
  ⟨operandErrors_eq_nil h a (by simp), operandErrors_eq_nil h b (by simp)⟩

/-- A failed instruction encoding reports at least one error. -/
theorem encodeInstr_error_ne_nil {syms : SymbolMap} {pc : Nat} {toks : List String}
    {es : List String} (h : encodeInstr syms pc toks = Except.error es) : es ≠ [] := by
  intro hn
  subst hn
  simp only [encodeInstr] at h
  split at h
  all_goals (try split at h)
  all_goals (try split at h)
  all_goals (try split at h)
  all_goals
    first
    | (simp at h; done)
    | (rename_i u1 u2 u3 hx
       injection h with h
       rcases operandErrors_triple h with ⟨⟨v1, e1⟩, ⟨v2, e2⟩, ⟨v3, e3⟩⟩
       exact hx v1 v2 v3 e1 e2 e3)
    | (rename_i u1 u2 hx
       injection h with h
       rcases operandErrors_pair h with ⟨⟨v1, e1⟩, ⟨v2, e2⟩⟩
       exact hx v1 v2 e1 e2)

/-- A successful instruction encoding emits exactly four bytes (the fixed
4-byte instruction size of RV32I). -/
theorem encodeInstr_ok_length {syms : SymbolMap} {pc : Nat} {toks : List String}
    {bs : List Nat} (h : encodeInstr syms pc toks = Except.ok bs) :
    bs.length = 4 := by
  simp only [encodeInstr] at h
  split at h
  all_goals (try split at h)
  all_goals (try split at h)
  all_goals (try split at h)
  all_goals
    first
    | (simp at h; done)
    | (injection h with h; subst h; simp [wordBytes])

/-- Extending a section appends to its byte buffer. -/
theorem secData_appendSec (secs : List (String × List Nat)) (k : String)
    (bs : List Nat) : secData (appendSec secs k bs) k = secData secs k ++ bs := by
  induction secs with
  | nil => simp [appendSec, secData, lookupSym]
  | cons p rest ih =>
    obtain ⟨k1, d⟩ := p
    by_cases hk : k1 = k
    · subst hk
      simp [appendSec, secData, lookupSym]
    · have e1 : appendSec ((k1, d) :: rest) k bs = (k1, d) :: appendSec rest k bs := by
        simp [appendSec, hk]
      have e2 : secData ((k1, d) :: appendSec rest k bs) k =
          secData (appendSec rest k bs) k := by
        simp [secData, lookupSym, hk]
      have e3 : secData ((k1, d) :: rest) k = secData rest k := by
        simp [secData, lookupSym, hk]
      rw [e1, e2, e3, ih]

/-- Extending one section leaves the others' byte buffers unchanged. -/
theorem secData_appendSec_ne (secs : List (String × List Nat)) {k k' : String}
    (bs : List Nat) (h : k ≠ k') :
    secData (appendSec secs k bs) k' = secData secs k' := by
  induction secs with
  | nil => simp [appendSec, secData, lookupSym, h]
  | cons p rest ih =>
    obtain ⟨k1, d⟩ := p
    by_cases hk : k1 = k
    · subst hk
      simp [appendSec, secData, lookupSym, h]
    · have e1 : appendSec ((k1, d) :: rest) k bs = (k1, d) :: appendSec rest k bs := by
        simp [appendSec, hk]
      rw [e1]
      by_cases hk' : k1 = k'
      · simp [secData, lookupSym, hk']
      · simpa [secData, lookupSym, hk'] using ih

/-- One pass-3 step only appends to the error vector. -/
theorem pass3Line_errs (syms : SymbolMap) (st : P3State) (l : SourceLine) :
    ∃ t, (pass3Line syms st l).errs = st.errs ++ t := by
  simp only [pass3Line]
  split
  · exact ⟨[], by simp⟩
  · split
    · simp only [execDirective]
      split
      · exact ⟨_, rfl⟩
      · exact ⟨[], by simp⟩
      · exact ⟨[], by simp⟩
      · split
        · exact ⟨_, rfl⟩
        · exact ⟨[], by simp⟩
    · split
      · exact ⟨[], by simp⟩
      · exact ⟨_, rfl⟩

/-- The pass-3 walk only appends to the error vector. -/
theorem pass3Go_errs (syms : SymbolMap) (lines : Program) :
    ∀ st : P3State, ∃ t, (pass3Go syms lines st).errs = st.errs ++ t := by
  induction lines with
  | nil => intro st; exact ⟨[], by simp [pass3Go]⟩
  | cons l ls ih =>
    intro st
    obtain ⟨t1, h1⟩ := pass3Line_errs syms st l
    obtain ⟨t2, h2⟩ := ih (pass3Line syms st l)
    exact ⟨t1 ++ t2, by simp [pass3Go, h2, h1]⟩

/-- If the pass-3 walk ends without errors, it started without errors. -/
theorem pass3Go_errs_nil {syms : SymbolMap} {lines : Program} {st : P3State}
    (h : (pass3Go syms lines st).errs = []) : st.errs = [] := by
  obtain ⟨t, ht⟩ := pass3Go_errs syms lines st
  rw [ht] at h
  exact List.append_eq_nil.mp h |>.1

/-- The `.text`-length invariant of the error-free pass-3 walk: when no
byte-emitting directive executes in `.text`, the `.text` buffer grows by
exactly 4 bytes per instruction line executed in `.text`. -/
theorem pass3Go_textLen (syms : SymbolMap) (lines : Program) :
    ∀ st : P3State, (pass3Go syms lines st).errs = [] →
      noDataInText lines st.cur = true →
      (secData (pass3Go syms lines st).sections ".text").length =
        (secData st.sections ".text").length + 4 * textInstrCount lines st.cur := by
  induction lines with
  | nil =>
    intro st h1 h2
    simp [pass3Go, textInstrCount]
  | cons l ls ih =>
    intro st herr hnd
    have hgo : pass3Go syms (l :: ls) st = pass3Go syms ls (pass3Line syms st l) := rfl
    rw [hgo] at herr ⊢
    cases hl : l.tokens with
    | nil =>
      have hstep : pass3Line syms st l = st := by simp [pass3Line, hl]
      rw [hstep] at herr ⊢
      have hnd' : noDataInText ls st.cur = true := by
        simpa [noDataInText, hl] using hnd
      have hres := ih st herr hnd'
      simpa [textInstrCount, hl] using hres
    | cons t args =>
      by_cases hd : isDirTok t
      · have hstep : pass3Line syms st l = execDirective syms st l.source_line t args := by
          simp [pass3Line, hl, hd]
        rw [hstep] at herr ⊢
        cases he : directiveEffect t args with
        | error e =>
          have hx : (execDirective syms st l.source_line t args).errs =
              st.errs ++ [(l.source_line, e)] := by
            simp [execDirective, he]
          have hnil := pass3Go_errs_nil herr
          rw [hx] at hnil
          simp at hnil
        | ok eff =>
          cases eff with
          | switchSec s =>
            have hx : execDirective syms st l.source_line t args = { st with cur := s } := by
              simp [execDirective, he]
            rw [hx] at herr ⊢
            have hnd' : noDataInText ls s = true := by
              simpa [noDataInText, hl, hd, he] using hnd
            have hres := ih { st with cur := s } herr hnd'
            simpa [textInstrCount, hl, hd, he] using hres
          | alignTo e' =>
            have hcur : st.cur ≠ ".text" := by
              intro hc
              simp [noDataInText, hl, hd, he, hc] at hnd
            have hnd' : noDataInText ls st.cur = true := by
              simpa [noDataInText, hl, hd, he, hcur] using hnd
            have hx : execDirective syms st l.source_line t args =
                { st with
                  sections := appendSec st.sections st.cur
                    (List.replicate
                      (alignUp (sectionBase st.cur + (secData st.sections st.cur).length)
                          (2 ^ e') -
                        (sectionBase st.cur + (secData st.sections st.cur).length)) 0) } := by
              simp [execDirective, he]
            rw [hx] at herr ⊢
            have hres := ih _ herr hnd'
            rw [secData_appendSec_ne _ _ hcur] at hres
            simpa [textInstrCount, hl, hd, he] using hres
          | emit n =>
            have hcur : st.cur ≠ ".text" := by
              intro hc
              simp [noDataInText, hl, hd, he, hc] at hnd
            have hnd' : noDataInText ls st.cur = true := by
              simpa [noDataInText, hl, hd, he, hcur] using hnd
            cases hdd : directiveData syms t args with
            | error e2 =>
              have hx : (execDirective syms st l.source_line t args).errs =
                  st.errs ++ [(l.source_line, e2)] := by
                simp [execDirective, he, hdd]
              have hnil := pass3Go_errs_nil herr
              rw [hx] at hnil
              simp at hnil
            | ok bs =>
              have hx : execDirective syms st l.source_line t args =
                  { st with sections := appendSec st.sections st.cur bs } := by
                simp [execDirective, he, hdd]
              rw [hx] at herr ⊢
              have hres := ih _ herr hnd'
              rw [secData_appendSec_ne _ _ hcur] at hres
              simpa [textInstrCount, hl, hd, he] using hres
      · have hpl : pass3Line syms st l =
            match encodeInstr syms
                (sectionBase st.cur + (secData st.sections st.cur).length) (t :: args) with
            | Except.ok bs => { st with sections := appendSec st.sections st.cur bs }
            | Except.error es =>
              { st with errs := st.errs ++ es.map (fun e => (l.source_line, e)) } := by
          simp [pass3Line, hl, hd]
        have hnd' : noDataInText ls st.cur = true := by
          simpa [noDataInText, hl, hd] using hnd
        cases henc : encodeInstr syms
            (sectionBase st.cur + (secData st.sections st.cur).length) (t :: args) with
        | error es =>
          rw [henc] at hpl
          rw [hpl] at herr
          have hnil := pass3Go_errs_nil herr
          simp only [List.append_eq_nil] at hnil
          exact absurd (List.map_eq_nil_iff.mp hnil.2) (encodeInstr_error_ne_nil henc)
        | ok bs =>
          rw [henc] at hpl
          rw [hpl] at herr ⊢
          have hb4 := encodeInstr_ok_length henc
          have hres := ih _ herr hnd'
          by_cases hc : st.cur = ".text"
          · rw [hc] at hres ⊢
            rw [secData_appendSec] at hres
            simp only [textInstrCount, hl, hd, hc, if_true, List.length_append, hb4] at hres ⊢
            simp [hres]
            ring
          · rw [secData_appendSec_ne _ _ hc] at hres
            simpa [textInstrCount, hl, hd, hc] using hres

/-! ## Claim theorems -/

/-- C1: for every input program, each pass returns either its continuation
artifact or its error vector; the first pass to produce errors terminates
the pipeline (no later pass runs) and its collected errors are exactly
the errors returned by `assemble`. -/
theorem claim_C1_pass_pipeline (src : List String) :
    ((∃ e, pass0 src = Except.error e) ∨ ∃ p, pass0 src = Except.ok p) ∧
    (∀ p, (∃ e, pass1 p = Except.error e) ∨ ∃ q, pass1 p = Except.ok q) ∧
    (∀ p, (∃ e, pass2 p = Except.error e) ∨ ∃ sm, pass2 p = Except.ok sm) ∧
    (∀ p sm, (∃ e, pass3 p sm = Except.error e) ∨ ∃ s, pass3 p sm = Except.ok s) ∧
    (∀ e, pass0 src = Except.error e → assemble src = Except.error e) ∧
    (∀ p0 e, pass0 src = Except.ok p0 → pass1 p0 = Except.error e →
      assemble src = Except.error e) ∧
    (∀ p0 p1 e, pass0 src = Except.ok p0 → pass1 p0 = Except.ok p1 →
      pass2 p1 = Except.error e → assemble src = Except.error e) ∧
    (∀ p0 p1 sm e, pass0 src = Except.ok p0 → pass1 p0 = Except.ok p1 →
      pass2 p1 = Except.ok sm → pass3 p1 sm = Except.error e →
      assemble src = Except.error e) ∧
    (∀ p0 p1 sm secs, pass0 src = Except.ok p0 → pass1 p0 = Except.ok p1 →
      pass2 p1 = Except.ok sm → pass3 p1 sm = Except.ok secs →
      assemble src = Except.ok ⟨secs, sm⟩) := by
  refine ⟨?_, ?_, ?_, ?_, ?_, ?_, ?_, ?_, ?_⟩
  · cases h : pass0 src with
    | error e => exact Or.inl ⟨e, rfl⟩
    | ok p => exact Or.inr ⟨p, rfl⟩
  · intro p
    cases h : pass1 p with
    | error e => exact Or.inl ⟨e, rfl⟩
    | ok q => exact Or.inr ⟨q, rfl⟩
  · intro p
    cases h : pass2 p with
    | error e => exact Or.inl ⟨e, rfl⟩
    | ok sm => exact Or.inr ⟨sm, rfl⟩
  · intro p sm
    cases h : pass3 p sm with
    | error e => exact Or.inl ⟨e, rfl⟩
    | ok s => exact Or.inr ⟨s, rfl⟩
  · intro e h
    simp [assemble, h]
  · intro p0 e h0 h1
    simp [assemble, h0, h1]
  · intro p0 p1 e h0 h1 h2
    simp [assemble, h0, h1, h2]
  · intro p0 p1 sm e h0 h1 h2 h3
    simp [assemble, h0, h1, h2, h3]
  · intro p0 p1 sm secs h0 h1 h2 h3
    simp [assemble, h0, h1, h2, h3]

/-- Witness for C1: concrete programs failing in each pass (tokenization,
symbol splitting, directive checking, encoding) and one succeeding. -/
theorem claim_C1_pass_pipeline_witness :
    assemble [".string \"foo"] = Except.error [(1, "unterminated string")] ∧
    assemble ["ABC+: nop"] = Except.error [(1, "invalid label: ABC+")] ∧
    assemble [".data foo"] =
      Except.error [(1, "directive takes no arguments: .data")] ∧
    assemble ["addi a0 a0 2048"] =
      Except.error [(1, "immediate out of range: 2048")] ∧
    assemble ["nop"] = Except.ok ⟨[(".text", [19, 0, 0, 0])], []⟩ :=
  ⟨(claim_C1_pass_pipeline [".string \"foo"]).2.2.2.2.1 _ rfl,
   (claim_C1_pass_pipeline ["ABC+: nop"]).2.2.2.2.2.1
     [⟨1, [], ["ABC+:", "nop"]⟩] _ rfl rfl,
   (claim_C1_pass_pipeline [".data foo"]).2.2.2.2.2.2.1
     [⟨1, [], [".data", "foo"]⟩] [⟨1, [], [".data", "foo"]⟩] _ rfl rfl rfl,
   (claim_C1_pass_pipeline ["addi a0 a0 2048"]).2.2.2.2.2.2.2.1
     [⟨1, [], ["addi", "a0", "a0", "2048"]⟩]
     [⟨1, [], ["addi", "a0", "a0", "2048"]⟩] [] _ rfl rfl rfl rfl,
   (claim_C1_pass_pipeline ["nop"]).2.2.2.2.2.2.2.2
     [⟨1, [], ["nop"]⟩] [⟨1, [], ["addi", "x0", "x0", "0"]⟩] []
     [(".text", [19, 0, 0, 0])] rfl rfl rfl rfl⟩

/-- C3: `addi a0 a0 2047` and `addi a0 a0 -2048` assemble successfully,
while `addi a0 a0 2048` and `addi a0 a0 -2049` fail with a range error
recorded on the source line of the offending instruction. -/
theorem claim_C3_edge_immediates :
    assemble ["addi a0 a0 2047", "addi a0 a0 -2048"] =
      Except.ok ⟨[(".text", [19, 5, 245, 127, 19, 5, 5, 128])], []⟩ ∧
    assemble ["addi a0 a0 2048", "addi a0 a0 -2049"] =
      Except.error [(1, "immediate out of range: 2048"),
        (2, "immediate out of range: -2049")] :=
  ⟨rfl, rfl⟩

/-- C9: `addi x36 x46 1` fails with exactly two semantic errors, one per
out-of-range register, both recorded on source line 1. -/
theorem claim_C9_invalid_registers :
    assemble ["addi x36 x46 1"] =
      Except.error [(1, "register index out of range: x36"),
        (1, "register index out of range: x46")] ∧
    ([(1, "register index out of range: x36"),
      (1, "register index out of range: x46")] : Errors).length = 2 ∧
    ([(1, "register index out of range: x36"),
      (1, "register index out of range: x46")] : Errors).all (fun e => e.1 = 1) =
      true :=
  ⟨rfl, rfl, rfl⟩

/-- C10: a label glued to an instruction (`B:nop`, `end:nop`) is split
into the label and the instruction: the splitter separates them, the glued
and spaced spellings assemble identically, and the two branch programs
assemble successfully. -/
theorem claim_C10_glued_labels :
    splitSymbols ["B:nop"] = Except.ok (["B"], ["nop"]) ∧
    assemble ["B:nop"] = assemble ["B: nop"] ∧
    assemble ["B:nop", "sw x0, 24(sp) # tmp. res 2", "addi a0 a0 10",
        "addi a0 a0 -1", "beqz a0 B"] =
      Except.ok ⟨[(".text",
        [19, 0, 0, 0, 35, 44, 1, 0, 19, 5, 165, 0, 19, 5, 245, 255,
         227, 8, 5, 254])], [("B", 0)]⟩ ∧
    assemble ["j end", "end:nop"] =
      Except.ok ⟨[(".text", [111, 0, 64, 0, 19, 0, 0, 0])], [("end", 4)]⟩ :=
  ⟨rfl, rfl, rfl, rfl⟩

/-- C2: for every encodable instruction of the matcher table, matching
the encoded 32-bit word yields the instruction's own descriptor (the
unique descriptor whose fixed-bit mask matches) and disassembly recovers
the canonical operand tokens; in particular the three quoted words match
`add`, `sub` and `beq`. -/
theorem claim_C2_match_roundtrip :
    (∀ rd rs1 rs2 : Nat, rd < 32 → rs1 < 32 → rs2 < 32 →
      matchInstruction (encAdd rd rs1 rs2) = some addDesc ∧
      (∀ d ∈ rv32iMatchTable, encAdd rd rs1 rs2 &&& d.mask = d.pattern → d = addDesc) ∧
      disassembleWord addDesc (encAdd rd rs1 rs2) =
        ["add", regTok rd, regTok rs1, regTok rs2]) ∧
    (∀ rd rs1 rs2 : Nat, rd < 32 → rs1 < 32 → rs2 < 32 →
      matchInstruction (encSub rd rs1 rs2) = some subDesc ∧
      (∀ d ∈ rv32iMatchTable, encSub rd rs1 rs2 &&& d.mask = d.pattern → d = subDesc) ∧
      disassembleWord subDesc (encSub rd rs1 rs2) =
        ["sub", regTok rd, regTok rs1, regTok rs2]) ∧
    (∀ (rd rs1 : Nat) (imm : Int), rd < 32 → rs1 < 32 → -2048 ≤ imm → imm ≤ 2047 →
      matchInstruction (encAddi rd rs1 imm) = some addiDesc ∧
      (∀ d ∈ rv32iMatchTable, encAddi rd rs1 imm &&& d.mask = d.pattern → d = addiDesc) ∧
      disassembleWord addiDesc (encAddi rd rs1 imm) =
        ["addi", regTok rd, regTok rs1, toString imm]) ∧
    (∀ (rd rs1 : Nat) (imm : Int), rd < 32 → rs1 < 32 → -2048 ≤ imm → imm ≤ 2047 →
      matchInstruction (encSlti rd rs1 imm) = some sltiDesc ∧
      (∀ d ∈ rv32iMatchTable, encSlti rd rs1 imm &&& d.mask = d.pattern → d = sltiDesc) ∧
      disassembleWord sltiDesc (encSlti rd rs1 imm) =
        ["slti", regTok rd, regTok rs1, toString imm]) ∧
    (∀ (rd rs1 : Nat) (imm : Int), rd < 32 → rs1 < 32 → -2048 ≤ imm → imm ≤ 2047 →
      matchInstruction (encXori rd rs1 imm) = some xoriDesc ∧
      (∀ d ∈ rv32iMatchTable, encXori rd rs1 imm &&& d.mask = d.pattern → d = xoriDesc) ∧
      disassembleWord xoriDesc (encXori rd rs1 imm) =
        ["xori", regTok rd, regTok rs1, toString imm]) ∧
    (∀ rd rs1 sh : Nat, rd < 32 → rs1 < 32 → sh < 32 →
      matchInstruction (encSlli rd rs1 sh) = some slliDesc ∧
      (∀ d ∈ rv32iMatchTable, encSlli rd rs1 sh &&& d.mask = d.pattern → d = slliDesc) ∧
      disassembleWord slliDesc (encSlli rd rs1 sh) =
        ["slli", regTok rd, regTok rs1, toString sh]) ∧
    (∀ rd rs1 sh : Nat, rd < 32 → rs1 < 32 → sh < 32 →
      matchInstruction (encSrai rd rs1 sh) = some sraiDesc ∧
      (∀ d ∈ rv32iMatchTable, encSrai rd rs1 sh &&& d.mask = d.pattern → d = sraiDesc) ∧
      disassembleWord sraiDesc (encSrai rd rs1 sh) =
        ["srai", regTok rd, regTok rs1, toString sh]) ∧
    (∀ (rs1 rs2 : Nat) (off : Int), rs1 < 32 → rs2 < 32 →
      -4096 ≤ off → off < 4096 → off % 2 = 0 →
      matchInstruction (encBeq rs1 rs2 off) = some beqDesc ∧
      (∀ d ∈ rv32iMatchTable, encBeq rs1 rs2 off &&& d.mask = d.pattern → d = beqDesc) ∧
      disassembleWord beqDesc (encBeq rs1 rs2 off) =
        ["beq", regTok rs1, regTok rs2, toString off]) ∧
    matchInstruction 0b00000000001000010000000100110011 = some addDesc ∧
    matchInstruction 0b01000000001000010000000100110011 = some subDesc ∧
    matchInstruction 0b11111110000000000000111011100011 = some beqDesc :=
  ⟨fun _ _ _ h1 h2 h3 => roundtrip_add h1 h2 h3,
   fun _ _ _ h1 h2 h3 => roundtrip_sub h1 h2 h3,
   fun _ _ _ h1 h2 h3 h4 => roundtrip_addi h1 h2 h3 h4,
   fun _ _ _ h1 h2 h3 h4 => roundtrip_slti h1 h2 h3 h4,
   fun _ _ _ h1 h2 h3 h4 => roundtrip_xori h1 h2 h3 h4,
   fun _ _ _ h1 h2 h3 => roundtrip_slli h1 h2 h3,
   fun _ _ _ h1 h2 h3 => roundtrip_srai h1 h2 h3,
   fun _ _ _ h1 h2 h3 h4 h5 => roundtrip_beq h1 h2 h3 h4 h5,
   rfl, rfl, rfl⟩

/-- Witness for C2: the round trip evaluated at concrete operands for
each instruction shape. -/
theorem claim_C2_match_roundtrip_witness :
    matchInstruction (encAdd 2 2 2) = some addDesc ∧
    disassembleWord addDesc (encAdd 2 2 2) = ["add", "x2", "x2", "x2"] ∧
    matchInstruction (encAddi 1 2 123) = some addiDesc ∧
    disassembleWord addiDesc (encAddi 1 2 123) = ["addi", "x1", "x2", "123"] ∧
    matchInstruction (encAddi 10 10 (-2048)) = some addiDesc ∧
    disassembleWord addiDesc (encAddi 10 10 (-2048)) =
      ["addi", "x10", "x10", "-2048"] ∧
    matchInstruction (encBeq 0 29 (-4)) = some beqDesc ∧
    disassembleWord beqDesc (encBeq 0 29 (-4)) = ["beq", "x0", "x29", "-4"] ∧
    matchInstruction (encSrai 2 2 17) = some sraiDesc :=
  ⟨((claim_C2_match_roundtrip.1 2 2 2 (by norm_num) (by norm_num) (by norm_num)).1),
   ((claim_C2_match_roundtrip.1 2 2 2 (by norm_num) (by norm_num) (by norm_num)).2.2),
   ((claim_C2_match_roundtrip.2.2.1 1 2 123 (by norm_num) (by norm_num)
      (by norm_num) (by norm_num)).1),
   ((claim_C2_match_roundtrip.2.2.1 1 2 123 (by norm_num) (by norm_num)
      (by norm_num) (by norm_num)).2.2),
   ((claim_C2_match_roundtrip.2.2.1 10 10 (-2048) (by norm_num) (by norm_num)
      (by norm_num) (by norm_num)).1),
   ((claim_C2_match_roundtrip.2.2.1 10 10 (-2048) (by norm_num) (by norm_num)
      (by norm_num) (by norm_num)).2.2),
   ((claim_C2_match_roundtrip.2.2.2.2.2.2.2.1 0 29 (-4) (by norm_num)
      (by norm_num) (by norm_num) (by norm_num) (by norm_num)).1),
   ((claim_C2_match_roundtrip.2.2.2.2.2.2.2.1 0 29 (-4) (by norm_num)
      (by norm_num) (by norm_num) (by norm_num) (by norm_num)).2.2),
   ((claim_C2_match_roundtrip.2.2.2.2.2.2.1 2 2 17 (by norm_num) (by norm_num)
      (by norm_num)).1)⟩

/-- Counterexample to C4 as stated: the section-switching program of the
segment scenario assembles successfully, its `.text` section holds 20
bytes (16 bytes of `.word` data plus one instruction), yet it has 3
non-directive instruction lines after pseudo expansion, and 20 ≠ 4 × 3.
The claim's count ignores which section a line falls in and which bytes
data directives emit into `.text`. -/
theorem claim_C4_counterexample :
    pass0 [".data", "nop", ".text ", "L: .word 1, 2, 3 ,4", "nop", ".data",
        "nop"] >>= pass1 =
      Except.ok [⟨1, [], [".data"]⟩, ⟨2, [], ["addi", "x0", "x0", "0"]⟩,
        ⟨3, [], [".text"]⟩, ⟨4, ["L"], [".word", "1", "2", "3", "4"]⟩,
        ⟨5, [], ["addi", "x0", "x0", "0"]⟩, ⟨6, [], [".data"]⟩,
        ⟨7, [], ["addi", "x0", "x0", "0"]⟩] ∧
    assemble [".data", "nop", ".text ", "L: .word 1, 2, 3 ,4", "nop", ".data",
        "nop"] =
      Except.ok ⟨[(".text",
          [1, 0, 0, 0, 2, 0, 0, 0, 3, 0, 0, 0, 4, 0, 0, 0, 19, 0, 0, 0]),
        (".data", [19, 0, 0, 0, 19, 0, 0, 0])], [("L", 0)]⟩ ∧
    ([1, 0, 0, 0, 2, 0, 0, 0, 3, 0, 0, 0, 4, 0, 0, 0, 19, 0, 0, 0] :
        List Nat).length = 20 ∧
    instrLineCount [⟨1, [], [".data"]⟩, ⟨2, [], ["addi", "x0", "x0", "0"]⟩,
      ⟨3, [], [".text"]⟩, ⟨4, ["L"], [".word", "1", "2", "3", "4"]⟩,
      ⟨5, [], ["addi", "x0", "x0", "0"]⟩, ⟨6, [], [".data"]⟩,
      ⟨7, [], ["addi", "x0", "x0", "0"]⟩] = 3 ∧
    (20 : Nat) ≠ 4 * 3 :=
  ⟨rfl, rfl, rfl, rfl, by norm_num⟩

/-- C4 (amended): for every successfully assembled program that executes
no byte-emitting or padding directive while `.text` is the current
section, the `.text` byte length equals 4 times the number of instruction
lines executed in `.text` after pseudo expansion; the `.data`/`.text`
example program's `.text` section is exactly 8 bytes. -/
theorem claim_C4_text_size {src : List String} {p0 p1 : Program} {sm : SymbolMap}
    {res : AsmResult}
    (h0 : pass0 src = Except.ok p0) (h1 : pass1 p0 = Except.ok p1)
    (h2 : pass2 p1 = Except.ok sm) (hres : assemble src = Except.ok res)
    (hnd : noDataInText p1 ".text" = true) :
    (secData res.sections ".text").length = 4 * textInstrCount p1 ".text" := by
  simp only [assemble, h0, h1, h2] at hres
  cases hp3 : pass3 p1 sm with
  | error e => rw [hp3] at hres; cases hres
  | ok secs =>
    rw [hp3] at hres
    injection hres with hres
    subst hres
    rw [pass3] at hp3
    split at hp3
    · injection hp3 with hp3
      subst hp3
      rename_i herr
      have hlen := pass3Go_textLen sm p1 ⟨[(".text", [])], ".text", []⟩ herr hnd
      simpa [secData, lookupSym] using hlen
    · cases hp3

/-- Witness for C4 (amended): the simple data+text program has a `.text`
section of exactly 8 bytes = 4 × its 2 instruction lines. -/
theorem claim_C4_text_size_witness :
    (secData [(".text", [19, 5, 181, 7, 19, 0, 0, 0]),
        (".data", [1, 0, 0, 0, 2, 0, 0, 0, 2, 0, 0, 0, 104, 101, 108, 108,
          111, 32, 119, 111, 114, 108, 100, 33, 0])] ".text").length =
      4 * textInstrCount [⟨1, [], [".data"]⟩, ⟨2, ["B"], [".word", "1", "2", "2"]⟩,
        ⟨3, ["C"], [".string", "\"hello world!\""]⟩, ⟨4, [], [".text"]⟩,
        ⟨5, [], ["addi", "a0", "a0", "123"]⟩, ⟨6, [], ["addi", "x0", "x0", "0"]⟩]
        ".text" :=
  @claim_C4_text_size
    [".data", "B: .word 1, 2, 2", "C: .string \"hello world!\"", ".text",
     "addi a0 a0 123 # Hello world", "nop"]
    [⟨1, [], [".data"]⟩, ⟨2, [], ["B:", ".word", "1", "2", "2"]⟩,
     ⟨3, [], ["C:", ".string", "\"hello world!\""]⟩, ⟨4, [], [".text"]⟩,
     ⟨5, [], ["addi", "a0", "a0", "123"]⟩, ⟨6, [], ["nop"]⟩]
    [⟨1, [], [".data"]⟩, ⟨2, ["B"], [".word", "1", "2", "2"]⟩,
     ⟨3, ["C"], [".string", "\"hello world!\""]⟩, ⟨4, [], [".text"]⟩,
     ⟨5, [], ["addi", "a0", "a0", "123"]⟩, ⟨6, [], ["addi", "x0", "x0", "0"]⟩]
    [("B", 268435456), ("C", 268435468)]
    ⟨[(".text", [19, 5, 181, 7, 19, 0, 0, 0]),
      (".data", [1, 0, 0, 0, 2, 0, 0, 0, 2, 0, 0, 0, 104, 101, 108, 108, 111,
        32, 119, 111, 114, 108, 100, 33, 0])],
      [("B", 268435456), ("C", 268435468)]⟩
    rfl rfl rfl rfl rfl

/-! ## Symbol splitter and directive-catalog lemmas -/

/-- Looking up in an appended association list falls through the first
list. -/
theorem lookupSym_append {α : Type} (a b : List (String × α)) (k : String) :
    lookupSym (a ++ b) k =
      match lookupSym a k with
      | some v => some v
      | none => lookupSym b k := by
  induction a with
  | nil => simp [lookupSym]
  | cons p rest ih =>
    by_cases hk : p.1 = k
    · simp [lookupSym, hk]
    · simp [lookupSym, hk, ih]

/-- The colon scan finds no colon when the input has none. -/
theorem splitColonGo_none (cs : List Char) (h : ∀ c ∈ cs, c ≠ ':') :
    ∀ acc, splitColonGo cs acc = none := by
  induction cs with
  | nil => intro acc; rfl
  | cons c rest ih =>
    intro acc
    have hc : c ≠ ':' := h c (by simp)
    simp only [splitColonGo, hc, if_false]
    exact ih (fun c' hc' => h c' (by simp [hc'])) _

/-- The colon scan splits at the first colon. -/
theorem splitColonGo_colon (cs rest : List Char) (h : ∀ c ∈ cs, c ≠ ':') :
    ∀ acc, splitColonGo (cs ++ ':' :: rest) acc =
      some (String.mk (acc ++ cs), String.mk rest) := by
  induction cs with
  | nil => intro acc; simp [splitColonGo]
  | cons c cs' ih =>
    intro acc
    have hc : c ≠ ':' := h c (by simp)
    simp only [List.cons_append, splitColonGo, hc, if_false]
    have := ih (fun c' hc' => h c' (by simp [hc'])) (acc ++ [c])
    simpa using this

/-- A valid label name contains no colon. -/
theorem validLabel_no_colon {s : String} (h : validLabel s = true) :
    ∀ c ∈ s.data, c ≠ ':' := by
  intro c hc
  rcases hd : s.data with _ | ⟨c0, cs⟩
  · rw [hd] at hc; cases hc
  · rw [validLabel, hd] at h
    simp only [Bool.and_eq_true] at h
    rw [hd] at hc
    rcases List.mem_cons.mp hc with rfl | hc'
    · intro he
      rw [he] at h
      exact absurd h.1 (by decide)
    · intro he
      have := List.all_eq_true.mp h.2 c hc'
      rw [he] at this
      exact absurd this (by decide)

/-- Splitting a valid label token `name:` yields the name and an empty
remainder. -/
theorem splitColon_label (s : String) (h : validLabel s = true) :
    splitColon (s ++ ":") = some (s, "") := by
  have hd : (s ++ ":").data = s.data ++ ':' :: [] := rfl
  rw [splitColon, hd, splitColonGo_colon s.data [] (validLabel_no_colon h) []]
  rfl

/-- The label peeler consumes exactly the `label:` tokens of a line built
from valid label names (given enough fuel). -/
theorem splitSymbolsGo_labels (names : List String) :
    ∀ fuel acc, (∀ s ∈ names, validLabel s = true) → names.length ≤ fuel →
      splitSymbolsGo fuel (names.map (fun s => s ++ ":")) acc =
        Except.ok (acc ++ names, []) := by
  induction names with
  | nil =>
    intro fuel acc h1 h2
    cases fuel <;> simp [splitSymbolsGo]
  | cons s rest ih =>
    intro fuel acc h1 h2
    cases fuel with
    | zero => simp at h2
    | succ f =>
      have hs : validLabel s = true := h1 s (by simp)
      simp only [List.map_cons, splitSymbolsGo, splitColon_label s hs, hs,
        if_true]
      rw [ih f (acc ++ [s]) (fun x hx => h1 x (by simp [hx])) (by simpa using h2)]
      simp

/-- The fuel chosen by `splitSymbols` covers one step per label token. -/
theorem splitSymbols_fuel (names : List String) :
    names.length ≤ ((names.map (fun s => s ++ ":")).map (·.length)).sum := by
  induction names with
  | nil => simp
  | cons s rest ih =>
    simp only [List.map_cons, List.sum_cons, List.length_cons]
    have hl : (s ++ ":").length = s.length + 1 := by
      rw [String.length_append]
      rfl
    omega

/-- Binding preserves already-bound symbols. -/
theorem bindSyms_lookup_mono {st : P2State} {x : String} {v : Nat}
    (names : List String) (n : Nat) (h : lookupSym st.syms x = some v) :
    lookupSym (bindSyms st n names).syms x = some v := by
  induction names generalizing st with
  | nil => exact h
  | cons s rest ih =>
    cases hs : lookupSym st.syms s with
    | some w =>
      simp only [bindSyms, hs]
      exact ih h
    | none =>
      simp only [bindSyms, hs]
      apply ih
      simp only [lookupSym_append, h]

/-- Binding does not touch the cursor state, the current section or the
error vector. -/
theorem bindSyms_state (names : List String) :
    ∀ (st : P2State) (n : Nat),
      (bindSyms st n names).cursors = st.cursors ∧
      (bindSyms st n names).cur = st.cur := by
  induction names with
  | nil => intro st n; exact ⟨rfl, rfl⟩
  | cons s rest ih =>
    intro st n
    cases hs : lookupSym st.syms s with
    | some w => simp only [bindSyms, hs]; exact ih _ n
    | none => simp only [bindSyms, hs]; exact ih _ n

/-- A label-only binding step binds every fresh, distinct label of the
line to the same current address. -/
theorem bindSyms_all (names : List String) :
    ∀ (st : P2State) (n : Nat), names.Nodup →
      (∀ s ∈ names, lookupSym st.syms s = none) →
      ∀ s ∈ names, lookupSym (bindSyms st n names).syms s =
        some (sectionBase st.cur + getCount st.cursors st.cur) := by
  induction names with
  | nil => intro st n h1 h2 s hs; cases hs
  | cons s0 rest ih =>
    intro st n h1 h2 s hs
    have hs0 : lookupSym st.syms s0 = none := h2 s0 (by simp)
    simp only [bindSyms, hs0]
    set st' : P2State :=
      { st with
        syms := st.syms ++ [(s0, sectionBase st.cur + getCount st.cursors st.cur)] }
      with hst'
    rcases List.mem_cons.mp hs with rfl | hmem
    · apply bindSyms_lookup_mono
      simp [hst', lookupSym_append, hs0, lookupSym]
    · have hnotin : s ≠ s0 := by
        rintro rfl
        exact (List.nodup_cons.mp h1).1 hmem
      have h2' : ∀ x ∈ rest, lookupSym st'.syms x = none := by
        intro x hx
        have hx0 : x ≠ s0 := by
          rintro rfl
          exact (List.nodup_cons.mp h1).1 hx
        simp [hst', lookupSym_append, h2 x (by simp [hx]), lookupSym, hx0,
          Ne.symm hx0]
      have := ih st' n (List.nodup_cons.mp h1).2 h2' s hmem
      simpa [hst'] using this

/-- An unknown token in directive position is rejected with an
unknown-directive error. -/
theorem unknown_directive_effect {tok : String} (args : List String)
    (h : tok ∉ knownDirectives) :
    directiveEffect tok args = Except.error ("unknown directive: " ++ tok) := by
  simp only [knownDirectives, List.mem_cons, List.not_mem_nil, or_false,
    not_or] at h
  obtain ⟨h1, h2, h3, h4, h5, h6, h7, h8, h9, h10, h11, h12⟩ := h
  simp [directiveEffect, h1, h2, h3, h4, h5, h6, h7, h8, h9, h10, h11, h12]

/-- C7: a line may begin with zero or more `label:` tokens: the splitter
peels every valid label; a label-only line binds all its fresh labels to
the same current address; the concrete label program binds `A`–`E` all to
address 0; and labels violating `[A-Za-z_][A-Za-z0-9_]*` are syntax
errors. -/
theorem claim_C7_labels :
    (∀ names : List String, (∀ s ∈ names, validLabel s = true) →
      splitSymbols (names.map (fun s => s ++ ":")) = Except.ok (names, [])) ∧
    (∀ (st : P2State) (n : Nat) (names : List String), names.Nodup →
      (∀ s ∈ names, lookupSym st.syms s = none) →
      ∀ s ∈ names, lookupSym (bindSyms st n names).syms s =
        some (sectionBase st.cur + getCount st.cursors st.cur)) ∧
    assemble ["A:", "", "B: C:", "D: E: addi a0 a0 -1"] =
      Except.ok ⟨[(".text", [19, 5, 245, 255])],
        [("A", 0), ("B", 0), ("C", 0), ("D", 0), ("E", 0)]⟩ ∧
    assemble ["ABC+: lw x10 ABC+ x10"] =
      Except.error [(1, "invalid label: ABC+")] ∧
    assemble ["1a: nop"] = Except.error [(1, "invalid label: 1a")] := by
  refine ⟨?_, ?_, rfl, rfl, rfl⟩
  · intro names h
    rw [splitSymbols]
    exact splitSymbolsGo_labels names _ [] h
      (Nat.le_succ_of_le (splitSymbols_fuel names))
  · intro st n names h1 h2
    exact bindSyms_all names st n h1 h2

/-- Witness for C7: the splitter and the binder evaluated on concrete
label lines. -/
theorem claim_C7_labels_witness :
    splitSymbols ["D:", "E:"] = Except.ok (["D", "E"], []) ∧
    lookupSym (bindSyms ⟨[], ".text", [], []⟩ 3 ["B", "C"]).syms "C" =
      some 0 :=
  ⟨claim_C7_labels.1 ["D", "E"] (by decide),
   claim_C7_labels.2.1 ⟨[], ".text", [], []⟩ 3 ["B", "C"] (by simp)
     (fun s _ => rfl) "C" (by simp)⟩

/-- C8: a no-argument directive given an argument fails (`.data foo`),
and a token in directive position naming no known directive fails with an
unknown-directive error, never silently ignored. -/
theorem claim_C8_unknown_directives :
    assemble [".data foo"] =
      Except.error [(1, "directive takes no arguments: .data")] ∧
    assemble [".text", "B: .a", "", ".c", "nop"] =
      Except.error [(2, "unknown directive: .a"), (4, "unknown directive: .c")] ∧
    (∀ (tok : String) (args : List String), tok ∉ knownDirectives →
      directiveEffect tok args = Except.error ("unknown directive: " ++ tok)) ∧
    (∀ (st : P2State) (n : Nat) (tok : String) (args : List String),
      isDirTok tok = true → tok ∉ knownDirectives →
      (pass2Line st ⟨n, [], tok :: args⟩).errs =
        st.errs ++ [(n, "unknown directive: " ++ tok)]) := by
  refine ⟨rfl, rfl, ?_, ?_⟩
  · intro tok args h
    exact unknown_directive_effect args h
  · intro st n tok args hd h
    simp [pass2Line, bindSyms, hd, unknown_directive_effect args h]

/-- Witness for C8: the unknown-directive rejection evaluated at `.a`. -/
theorem claim_C8_unknown_directives_witness :
    directiveEffect ".a" [] = Except.error ("unknown directive: " ++ ".a") ∧
    (pass2Line ⟨[], ".text", [], []⟩ ⟨2, [], [".a"]⟩).errs =
      [] ++ [(2, "unknown directive: " ++ ".a")] :=
  ⟨claim_C8_unknown_directives.2.2.1 ".a" [] (by decide),
   claim_C8_unknown_directives.2.2.2 ⟨[], ".text", [], []⟩ 2 ".a" []
     (by decide) (by decide)⟩

/-- C6: `.word` arguments emit 4 little-endian bytes each, `.half` 2,
`.byte` 1, appended in argument order; `.word 42` then `.half 42` then
`.byte 42` emits 42,0,0,0,42,0,42. -/
theorem claim_C6_data_directives :
    assemble [".data", "cw: .word 42", "ch: .half 42", "cb: .byte 42"] =
      Except.ok ⟨[(".text", []), (".data", [42, 0, 0, 0, 42, 0, 42])],
        [("cw", 268435456), ("ch", 268435460), ("cb", 268435462)]⟩ ∧
    (∀ (syms : SymbolMap) (args : List String) (vals : List Int),
      args.mapM (evalImmExpr syms) = Except.ok vals →
      directiveData syms ".word" args =
        Except.ok (vals.flatMap (fun v => wordBytes (toUnsigned 32 v))) ∧
      directiveData syms ".half" args =
        Except.ok (vals.flatMap (fun v => halfBytes (toUnsigned 16 v))) ∧
      directiveData syms ".byte" args =
        Except.ok (vals.map (fun v => toUnsigned 8 v))) ∧
    (∀ v : Nat, v < 2 ^ 32 →
      (wordBytes v).foldr (fun b acc => b + 2 ^ 8 * acc) 0 = v) ∧
    (∀ v : Nat, v < 2 ^ 16 →
      (halfBytes v).foldr (fun b acc => b + 2 ^ 8 * acc) 0 = v) ∧
    (∀ v : Nat, (wordBytes v).length = 4 ∧ (halfBytes v).length = 2) := by
  refine ⟨rfl, ?_, ?_, ?_, ?_⟩
  · intro syms args vals h
    refine ⟨?_, ?_, ?_⟩
    · have e : directiveData syms ".word" args =
          (match args.mapM (evalImmExpr syms) with
           | Except.ok vs =>
             Except.ok (vs.flatMap (fun v => wordBytes (toUnsigned 32 v)))
           | Except.error e => Except.error e) := rfl
      rw [e, h]
    · have e : directiveData syms ".half" args =
          (match args.mapM (evalImmExpr syms) with
           | Except.ok vs =>
             Except.ok (vs.flatMap (fun v => halfBytes (toUnsigned 16 v)))
           | Except.error e => Except.error e) := rfl
      rw [e, h]
    · have e : directiveData syms ".byte" args =
          (match args.mapM (evalImmExpr syms) with
           | Except.ok vs => Except.ok (vs.map (fun v => toUnsigned 8 v))
           | Except.error e => Except.error e) := rfl
      rw [e, h]
  · intro v hv
    simp only [wordBytes, List.foldr]
    omega
  · intro v hv
    simp only [halfBytes, List.foldr]
    omega
  · intro v
    exact ⟨rfl, rfl⟩

/-- Witness for C6: the directive emissions and the little-endian
recomposition evaluated at 42 and at a 32-bit value. -/
theorem claim_C6_data_directives_witness :
    directiveData [] ".word" ["42"] = Except.ok [42, 0, 0, 0] ∧
    directiveData [] ".half" ["42"] = Except.ok [42, 0] ∧
    directiveData [] ".byte" ["42"] = Except.ok [42] ∧
    (wordBytes 0x12345678).foldr (fun b acc => b + 2 ^ 8 * acc) 0 =
      0x12345678 ∧
    (halfBytes 0x1234).foldr (fun b acc => b + 2 ^ 8 * acc) 0 = 0x1234 :=
  ⟨(claim_C6_data_directives.2.1 [] ["42"] [42] rfl).1,
   (claim_C6_data_directives.2.1 [] ["42"] [42] rfl).2.1,
   (claim_C6_data_directives.2.1 [] ["42"] [42] rfl).2.2,
   claim_C6_data_directives.2.2.1 0x12345678 (by norm_num),
   claim_C6_data_directives.2.2.2.1 0x1234 (by norm_num)⟩

/-! ## String-directive pipeline lemmas -/

/-- Scanning a quoted span copies its characters verbatim up to the
closing quote. -/
theorem tokLoop_inString (cs : List Char) (h : ¬ '"' ∈ cs) :
    ∀ (rest : List Char) (depth : Nat) (cur : List Char) (toks : List String),
      tokLoop (cs ++ '"' :: rest) TokMode.inString depth cur toks =
        tokLoop rest TokMode.normal depth (cur ++ cs ++ ['"']) toks := by
  induction cs with
  | nil =>
    intro rest depth cur toks
    simp [tokLoop]
  | cons c cs' ih =>
    intro rest depth cur toks
    have hc : ¬ c = '"' := fun he => h (by simp [he])
    simp only [List.cons_append, tokLoop, hc, if_false]
    have := ih (fun he => h (by simp [he])) rest depth (cur ++ [c]) toks
    simpa using this

/-- Tokenizing a `.string` line yields the directive token and the quoted
literal as one verbatim token. -/
theorem tokenize_string_line (s : String) (h : ¬ '"' ∈ s.data) :
    tokenize (".string \"" ++ (s ++ "\"")) =
      Except.ok [".string", "\"" ++ s ++ "\""] := by
  have e : tokenize (".string \"" ++ (s ++ "\"")) =
      tokLoop (s.data ++ '"' :: []) TokMode.inString 0 ['"'] [".string"] := rfl
  rw [e, tokLoop_inString s.data h]
  rfl

/-- The interior of a well-formed quoted token is the quoted string's
character list. -/
theorem stringInterior_quoted (s : String) :
    stringInterior ("\"" ++ s ++ "\"") = some s.data := by
  have e : ("\"" ++ s ++ "\"").data = '"' :: (s.data ++ ['"']) := rfl
  rw [stringInterior, e]
  simp only [List.getLast?_concat, List.dropLast_concat]

/-- Pass 1 leaves a `.string` line unchanged: no label, no pseudo. -/
theorem pass1Line_string (n : Nat) (q : String) :
    pass1Line ⟨n, [], [".string", q]⟩ = Except.ok [⟨n, [], [".string", q]⟩] := rfl

/-- Pass 0 records the `.string` lines in order with their line numbers. -/
theorem pass0Go_strings (ss : List String) (h : ∀ s ∈ ss, ¬ '"' ∈ s.data) :
    ∀ n, pass0Go (ss.map (fun s => ".string \"" ++ (s ++ "\""))) n =
      (stringProg ss n, []) := by
  induction ss with
  | nil => intro n; rfl
  | cons s rest ih =>
    intro n
    simp only [List.map_cons, pass0Go, ih (fun x hx => h x (by simp [hx])),
      tokenize_string_line s (h s (by simp)), stringProg]

/-- Pass 1 maps a string-directive program to itself. -/
theorem pass1Go_strings (ss : List String) :
    ∀ n, pass1Go (stringProg ss n) = (stringProg ss n, []) := by
  induction ss with
  | nil => intro n; rfl
  | cons s rest ih =>
    intro n
    simp only [stringProg, pass1Go, ih (n + 1), pass1Line_string]
    simp

/-- Mapping the string-interior extraction over one quoted token. -/
theorem mapM_stringInterior_singleton (q : String) {cs : List Char}
    (h : stringInterior q = some cs) :
    ([q].mapM stringInterior : Option (List (List Char))) = some [cs] := by
  have e : ([q].mapM stringInterior : Option (List (List Char))) =
      (stringInterior q).bind (fun c => some [c]) := rfl
  rw [e, h]
  rfl

/-- The layout effect of one `.string` directive: it emits the string's
length plus one `NUL`. -/
theorem directiveEffect_string (s : String) :
    directiveEffect ".string" ["\"" ++ s ++ "\""] =
      Except.ok (DirEffect.emit (s.data.length + 1)) := by
  have e : directiveEffect ".string" ["\"" ++ s ++ "\""] =
      (match (["\"" ++ s ++ "\""].mapM stringInterior : Option (List (List Char))) with
       | some strs => Except.ok (DirEffect.emit ((strs.map (·.length + 1)).sum))
       | none => Except.error "invalid string literal in .string") := rfl
  rw [e, mapM_stringInterior_singleton _ (stringInterior_quoted s)]
  simp

/-- The bytes of one `.string` directive: the characters then a `NUL`. -/
theorem directiveData_string (syms : SymbolMap) (s : String) :
    directiveData syms ".string" ["\"" ++ s ++ "\""] =
      Except.ok (s.data.map Char.toNat ++ [0]) := by
  have e : directiveData syms ".string" ["\"" ++ s ++ "\""] =
      (match (["\"" ++ s ++ "\""].mapM stringInterior : Option (List (List Char))) with
       | some strs => Except.ok (strs.flatMap (fun cs => cs.map Char.toNat ++ [0]))
       | none => Except.error "invalid string literal in .string") := rfl
  rw [e, mapM_stringInterior_singleton _ (stringInterior_quoted s)]
  simp

/-- Pass 2 walks a string-directive program without errors and without
binding symbols. -/
theorem pass2Go_strings (ss : List String) :
    ∀ (n : Nat) (st : P2State),
      (pass2Go (stringProg ss n) st).errs = st.errs ∧
      (pass2Go (stringProg ss n) st).syms = st.syms := by
  induction ss with
  | nil => intro n st; exact ⟨rfl, rfl⟩
  | cons s rest ih =>
    intro n st
    have hstep : pass2Line st ⟨n, [], [".string", "\"" ++ s ++ "\""]⟩ =
        { st with
          cursors := updCount st.cursors st.cur
            (getCount st.cursors st.cur + (s.data.length + 1)) } := by
      simp [pass2Line, bindSyms, directiveEffect_string, isDirTok]
    simp only [stringProg, pass2Go, hstep]
    exact ih (n + 1) _

/-- Pass 3 walks a string-directive program in `.data`, appending each
string's bytes and a `NUL` in order, with no errors. -/
theorem pass3Go_strings (ss : List String) (syms : SymbolMap) :
    ∀ (n : Nat) (st : P3State), st.cur = ".data" →
      (pass3Go syms (stringProg ss n) st).errs = st.errs ∧
      (pass3Go syms (stringProg ss n) st).cur = ".data" ∧
      secData (pass3Go syms (stringProg ss n) st).sections ".data" =
        secData st.sections ".data" ++ strBytes ss ∧
      ∀ k, k ≠ ".data" →
        secData (pass3Go syms (stringProg ss n) st).sections k =
          secData st.sections k := by
  induction ss with
  | nil =>
    intro n st hcur
    refine ⟨rfl, hcur, by simp [pass3Go, strBytes], fun k hk => rfl⟩
  | cons s rest ih =>
    intro n st hcur
    have hstep : pass3Line syms st ⟨n, [], [".string", "\"" ++ s ++ "\""]⟩ =
        { st with
          sections := appendSec st.sections st.cur
            (s.data.map Char.toNat ++ [0]) } := by
      simp [pass3Line, isDirTok, execDirective, directiveEffect_string,
        directiveData_string]
    simp only [stringProg, pass3Go, hstep]
    set st' : P3State :=
      { st with
        sections := appendSec st.sections st.cur (s.data.map Char.toNat ++ [0]) }
      with hst'
    have hcur' : st'.cur = ".data" := hcur
    obtain ⟨e1, e2, e3, e4⟩ := ih (n + 1) st' hcur'
    refine ⟨e1, e2, ?_, ?_⟩
    · rw [e3, hst']
      rw [hcur] at *
      simp only [secData_appendSec]
      simp [strBytes]
    · intro k hk
      rw [e4 k hk, hst']
      rw [hcur]
      exact secData_appendSec_ne _ _ (fun he => hk he.symm)

/-- C5: a sequence of `.string` directives emits, for each quoted string
in order, its literal interior characters verbatim followed by a single
`NUL`, concatenated in directive order in the `.data` section. -/
theorem claim_C5_string_directives (ss : List String)
    (h : ∀ s ∈ ss, ¬ '"' ∈ s.data) :
    ∃ res : AsmResult,
      assemble (".data" :: ss.map (fun s => ".string \"" ++ (s ++ "\""))) =
        Except.ok res ∧
      secData res.sections ".data" = strBytes ss ∧
      res.symbols = [] := by
  have h0 : pass0 (".data" :: ss.map (fun s => ".string \"" ++ (s ++ "\""))) =
      Except.ok (⟨1, [], [".data"]⟩ :: stringProg ss 2) := by
    have e : pass0Go (".data" :: ss.map (fun s => ".string \"" ++ (s ++ "\""))) 1 =
        (⟨1, [], [".data"]⟩ :: stringProg ss 2, []) := by
      simp only [pass0Go, pass0Go_strings ss h 2]
      rfl
    simp [pass0, e]
  have h1 : pass1 (⟨1, [], [".data"]⟩ :: stringProg ss 2) =
      Except.ok (⟨1, [], [".data"]⟩ :: stringProg ss 2) := by
    have e : pass1Go (⟨1, [], [".data"]⟩ :: stringProg ss 2) =
        (⟨1, [], [".data"]⟩ :: stringProg ss 2, []) := by
      simp only [pass1Go, pass1Go_strings ss 2]
      rfl
    simp [pass1, e]
  have h2 : pass2 (⟨1, [], [".data"]⟩ :: stringProg ss 2) = Except.ok [] := by
    have hd : pass2Line ⟨[], ".text", [], []⟩ ⟨1, [], [".data"]⟩ =
        ⟨[], ".data", [], []⟩ := rfl
    have e := pass2Go_strings ss 2 ⟨[], ".data", [], []⟩
    rw [pass2]
    simp only [pass2Go, hd]
    simp [e.1, e.2]
  have h3 : ∃ secs,
      pass3 (⟨1, [], [".data"]⟩ :: stringProg ss 2) [] = Except.ok secs ∧
      secData secs ".data" = strBytes ss := by
    have hd : pass3Line [] ⟨[(".text", [])], ".text", []⟩ ⟨1, [], [".data"]⟩ =
        ⟨[(".text", [])], ".data", []⟩ := rfl
    obtain ⟨e1, e2, e3, e4⟩ :=
      pass3Go_strings ss [] 2 ⟨[(".text", [])], ".data", []⟩ rfl
    rw [pass3]
    simp only [pass3Go, hd]
    refine ⟨(pass3Go [] (stringProg ss 2)
      ⟨[(".text", [])], ".data", []⟩).sections, ?_, ?_⟩
    · simp [e1]
    · rw [e3]
      simp [secData, lookupSym]
  obtain ⟨secs, hp3, hdata⟩ := h3
  refine ⟨⟨secs, []⟩, ?_, hdata, rfl⟩
  simp [assemble, h0, h1, h2, hp3]

/-- Witness for C5: the nine-string scenario, including strings that look
like expressions, directives and instructions, emits their literal bytes
each followed by a `NUL`. -/
theorem claim_C5_string_directives_witness :
    ∃ res : AsmResult,
      assemble (".data" ::
        (["foo", "bar", "1*2+(3/foo)", "foo(", "foo)", "foo(.)", ".text",
          "nop", "addi a0 a0 baz"].map
            (fun s => ".string \"" ++ (s ++ "\"")))) = Except.ok res ∧
      secData res.sections ".data" =
        strBytes ["foo", "bar", "1*2+(3/foo)", "foo(", "foo)", "foo(.)",
          ".text", "nop", "addi a0 a0 baz"] ∧
      res.symbols = [] :=
  claim_C5_string_directives
    ["foo", "bar", "1*2+(3/foo)", "foo(", "foo)", "foo(.)", ".text", "nop",
     "addi a0 a0 baz"] (by decide)

end RipesSpec
